import Mathlib

/-!
# Verification of the `thinc` linear-model core (`thinc/ml/learner.pyx`)

Shallow embedding of the sparse averaged linear model implemented in
`src/thinc/ml/learner.pyx`, together with proofs about the claims of the
specification.

Conventions of the embedding:

* `class_t`, `feat_t`, `count_t`, `time_t` (unsigned C integers) are modelled
  as `Nat`.  The only subtraction performed on them in the source
  (`time - meta.time` in `update_accumulator`, `(time + 1) - meta.time` in
  `average_weight`, `nr_class - start` in `set_scores`) is applied at call
  sites where the minuend is at least the subtrahend, so truncated `Nat`
  subtraction agrees with the C unsigned subtraction there.
* `weight_t` is the model's weight scalar.  It is not declared under `src/`
  (the `.pxd` declarations file is not part of the sources); following the
  spec ("written as integers ... matching the training representation used
  for this model variant", §4.6) it is modelled as `Int`, which makes the
  dump rendering `'%d' % w` and the load parse `atoi` the identity.
* C pointer arrays of rows (`weight_t**`, `MetaData**`) become
  `List (Option (List _))`: a `none` entry is a NULL row pointer.  Arena
  allocation (`Pool.alloc`) always succeeds and zero-initialises, matching
  `calloc` on the happy path; out-of-memory is out of scope.
* The two `PreshMap`s (open-addressing hash tables keyed by integers) are
  modelled as insertion-ordered association lists; iteration over the
  table's cells (`for i in range(map.length)` skipping `key == 0` cells)
  becomes iteration over the association list, whose entries are exactly
  the non-empty cells in a fixed order shared by the two parallel maps.
* A Python `assert` failure or other raised exception is modelled by
  returning `none` from the operation (`Option`).
-/

set_option linter.unusedVariables false

namespace Thinc

/-- `DEF LINE_SIZE = 7` -/
def LINE_SIZE : Nat := 7

/-- `get_row(clas) = clas / LINE_SIZE` -/
def get_row (clas : Nat) : Nat := clas / LINE_SIZE

/-- `get_col(clas) = clas % LINE_SIZE` -/
def get_col (clas : Nat) : Nat := clas % LINE_SIZE

/-- `get_nr_rows(n)`: `nr_lines = get_row(n); if nr_lines == 0 or
`nr_lines * LINE_SIZE < n: nr_lines += 1`. -/
def get_nr_rows (n : Nat) : Nat :=
  let nr_lines := get_row n
  if nr_lines = 0 ∨ nr_lines * LINE_SIZE < n then nr_lines + 1 else nr_lines

/-- One `MetaData` cell: update count, last-touch timestamp, running
time-weighted total (`struct MetaData { weight_t total; count_t count;
time_t time; }`, zero-initialised by the arena). -/
structure MetaData where
  total : Int
  count : Nat
  time : Nat
deriving Repr, DecidableEq

def MetaData.zero : MetaData := ⟨0, 0, 0⟩

/-- A `TrainFeat`: per-row weight lines and parallel per-row metadata lines;
`none` models a NULL row pointer. -/
structure TrainFeat where
  weights : List (Option (List Int))
  meta : List (Option (List MetaData))
deriving Repr, DecidableEq

/-- `new_train_feat(mem, nr_class)`: allocates `get_nr_rows nr_class` NULL
row pointers for both the weights and the metadata. -/
def new_train_feat (nr_class : Nat) : TrainFeat :=
  ⟨List.replicate (get_nr_rows nr_class) none,
   List.replicate (get_nr_rows nr_class) none⟩

/-- Read `feat.weights[row][col]`, with 0 for unallocated storage (freshly
allocated rows are zeroed, so the call sites that pre-allocate see the same
values). -/
def cellW (f : TrainFeat) (row col : Nat) : Int :=
  match f.weights.getD row none with
  | none => 0
  | some rw => rw.getD col 0

/-- Read `feat.meta[row][col]`, with the zero cell for unallocated storage. -/
def cellM (f : TrainFeat) (row col : Nat) : MetaData :=
  match f.meta.getD row none with
  | none => MetaData.zero
  | some mrw => mrw.getD col MetaData.zero

/-- Write through `feat.weights[row][col]` (no-op on a NULL row: the source
only calls this after the row has been allocated). -/
def modW (f : TrainFeat) (row col : Nat) (g : Int → Int) : TrainFeat :=
  match f.weights.getD row none with
  | none => f
  | some rw => { f with weights := f.weights.set row (some (rw.set col (g (rw.getD col 0)))) }

/-- Write through `feat.meta[row][col]` (no-op on a NULL row: the source only
calls this after the row has been allocated). -/
def modM (f : TrainFeat) (row col : Nat) (g : MetaData → MetaData) : TrainFeat :=
  match f.meta.getD row none with
  | none => f
  | some mrw => { f with meta := f.meta.set row (some (mrw.set col (g (mrw.getD col MetaData.zero)))) }

/-- `update_weight(feat, clas, inc)`: `feat.weights[row][col] += inc`. -/
def update_weight (f : TrainFeat) (clas : Nat) (inc : Int) : TrainFeat :=
  modW f (get_row clas) (get_col clas) (· + inc)

/-- `update_accumulator(feat, clas, time)`:
`unchanged = time - meta.time; meta.total += unchanged * weights[row][col];
meta.time = time`. -/
def update_accumulator (f : TrainFeat) (clas : Nat) (time : Nat) : TrainFeat :=
  let row := get_row clas
  let col := get_col clas
  let weight := cellW f row col
  modM f row col (fun m => { m with total := m.total + (time - m.time : Nat) * weight, time := time })

/-- `update_count(feat, clas, inc)`: `feat.meta[row][col].count += inc`. -/
def update_count (f : TrainFeat) (clas : Nat) (inc : Nat) : TrainFeat :=
  modM f (get_row clas) (get_col clas) (fun m => { m with count := m.count + inc })

/-- The body of `average_weight` for one `(row, col)` cell:
`unchanged = (time + 1) - meta.time; meta.total += unchanged * w;
w = meta.total`. -/
def average_cell (f : TrainFeat) (row col : Nat) (time : Nat) : TrainFeat :=
  let w := cellW f row col
  let f := modM f row col (fun m => { m with total := m.total + ((time + 1) - m.time : Nat) * w })
  modW f row col (fun _ => (cellM f row col).total)

/-- `average_weight(feat, nr_class, time)`: for every allocated row and every
column of it, fast-forward the accumulator through `time + 1` and replace the
live weight with the accumulated total. -/
def average_weight (f : TrainFeat) (nr_class : Nat) (time : Nat) : TrainFeat :=
  (List.range (get_nr_rows nr_class)).foldl
    (fun f row =>
      match f.weights.getD row none with
      | none => f
      | some _ => (List.range LINE_SIZE).foldl (fun f col => average_cell f row col time) f)
    f

/-- `get_total_count(feat, n)`: sum of `meta[row][col].count` over all
allocated rows and all `LINE_SIZE` columns. -/
def get_total_count (f : TrainFeat) (n : Nat) : Nat :=
  (List.range (get_nr_rows n)).foldl
    (fun total row =>
      match f.meta.getD row none with
      | none => total
      | some mrw => (List.range LINE_SIZE).foldl
          (fun t col => t + (mrw.getD col MetaData.zero).count) total)
    0

/-- A gathered `WeightLine`: start class index plus the row's `LINE_SIZE`
weights (`struct WeightLine { class_t start; weight_line_t line; }`). -/
structure WeightLine where
  start : Nat
  line : List Int
deriving Repr, DecidableEq

/-- `scores[start + c] += line[c]` for `c < k` (the source's unrolled
seven-fold add is this loop with `k = LINE_SIZE`). -/
def addLine (scores : List Int) (start : Nat) (line : List Int) (k : Nat) : List Int :=
  (List.range k).foldl (fun s c => s.set (start + c) (s.getD (start + c) 0 + line.getD c 0)) scores

/-- The body of `set_scores`' row loop: a line fully below `nr_class` adds
all `LINE_SIZE` columns (unrolled in the source), the boundary line adds only
the `nr_class - start` valid columns. -/
def scoreStep (nr_class : Nat) (scores : List Int) (wl : WeightLine) : List Int :=
  if wl.start + LINE_SIZE < nr_class then addLine scores wl.start wl.line LINE_SIZE
  else addLine scores wl.start wl.line (nr_class - wl.start)

/-- `set_scores(scores, weight_lines, nr_rows, nr_class)`: zero the score
buffer (`memset`), then add each gathered line. -/
def set_scores (weight_lines : List WeightLine) (nr_class : Nat) : List Int :=
  weight_lines.foldl (scoreStep nr_class) (List.replicate nr_class 0)

/-! ## Association-list model of `PreshMap` / `PreshMapArray`

A `PreshMap` is an open-addressing hash table from nonzero 64-bit keys to
pointers; we model it as an insertion-ordered association list (the table's
non-empty cells).  `PreshMapArray(n)` is one such map per template id. -/

/-- `PreshMap.get`: first value stored under `k`, if any. -/
def assocFind {α : Type} : List (Nat × α) → Nat → Option α
  | [], _ => none
  | (k, v) :: t, k' => if k = k' then some v else assocFind t k'

/-- `PreshMap.set`: overwrite the value under `k` in place, or append a new
cell. -/
def assocSet {α : Type} : List (Nat × α) → Nat → α → List (Nat × α)
  | [], k, v => [(k, v)]
  | (k0, v0) :: t, k, v => if k0 = k then (k0, v) :: t else (k0, v0) :: assocSet t k v

/-- `PreshMapArray.get(template_id, key)`. -/
def mapGet {α : Type} (maps : List (List (Nat × α))) (tid fid : Nat) : Option α :=
  assocFind (maps.getD tid []) fid

/-- `PreshMapArray.set(template_id, key, value)`. -/
def mapSet {α : Type} (maps : List (List (Nat × α))) (tid fid : Nat) (v : α) :
    List (List (Nat × α)) :=
  maps.set tid (assocSet (maps.getD tid []) fid v)

/-- Value stored in the inference `weights` map: `new_feat` stores the
`TrainFeat`'s own row-pointer array (an alias, modelled as `shared`), while
`load` stores a freshly allocated row-pointer array (`owned`). -/
inductive WeightsVal where
  | shared
  | owned (rows : List (Option (List Int)))
deriving Repr, DecidableEq

/-! ## ScoresCache -/

/-- Reference to a cache buffer: one of the `max_size` pooled slots, or the
single shared overflow scratch buffer `_scores_if_full`. -/
inductive CacheRef where
  | slot (j : Nat)
  | overflow
deriving Repr, DecidableEq

/-- `ScoresCache`: the hash map `_cache` keyed by the (externally supplied,
collision-free per the spec's uniform-hash assumption) hash of the raw
feature-id sequence is modelled as an association from the sequence itself to
its slot index. -/
structure ScoresCache where
  scores_size : Nat
  max_size : Nat
  arrays : List (List Int)
  scores_if_full : List Int
  cache : List (List Nat × Nat)
  i : Nat
  n_hit : Nat
  n_total : Nat
deriving Repr, DecidableEq

/-- `ScoresCache.__init__(scores_size, max_size=10000)`: `max_size` pooled
zeroed buffers, one zeroed overflow buffer, empty map, zero counters. -/
def ScoresCache.init (scores_size : Nat) (max_size : Nat := 10000) : ScoresCache :=
  { scores_size := scores_size
    max_size := max_size
    arrays := List.replicate max_size (List.replicate scores_size 0)
    scores_if_full := List.replicate scores_size 0
    cache := []
    i := 0
    n_hit := 0
    n_total := 0 }

/-- Find the slot registered under a key in `_cache`. -/
def cacheFind : List (List Nat × Nat) → List Nat → Option Nat
  | [], _ => none
  | (k, v) :: t, k' => if k = k' then some v else cacheFind t k'

/-- `ScoresCache.lookup(size, kernel, is_hit)`: returns the new cache state,
the buffer returned to the caller, and the value written through `is_hit`
(`none` when the overflow branch leaves it unset). -/
def ScoresCache.lookup (c : ScoresCache) (key : List Nat) :
    ScoresCache × CacheRef × Option Bool :=
  let c := { c with n_total := c.n_total + 1 }
  match cacheFind c.cache key with
  | some j => ({ c with n_hit := c.n_hit + 1 }, CacheRef.slot j, some true)
  | none =>
    if c.i = c.max_size then (c, CacheRef.overflow, none)
    else ({ c with cache := (key, c.i) :: c.cache, i := c.i + 1 },
          CacheRef.slot c.i, some false)

/-- `ScoresCache.flush()`: reset the free-slot pointer and the counters and
replace `_cache` by a fresh empty map; the pooled buffers keep their
contents. -/
def ScoresCache.flush (c : ScoresCache) : ScoresCache :=
  { c with i := 0, n_hit := 0, n_total := 0, cache := [] }

/-- The caller filling the buffer handed out by `lookup` (scores are written
through the returned `weight_t*`). -/
def ScoresCache.writeRef (c : ScoresCache) (r : CacheRef) (v : List Int) : ScoresCache :=
  match r with
  | CacheRef.slot j => { c with arrays := c.arrays.set j v }
  | CacheRef.overflow => { c with scores_if_full := v }

/-- Contents of the buffer a `CacheRef` points at. -/
def ScoresCache.readRef (c : ScoresCache) (r : CacheRef) : List Int :=
  match r with
  | CacheRef.slot j => c.arrays.getD j []
  | CacheRef.overflow => c.scores_if_full

/-- A slot reference points inside the buffer pool (true for every slot
`lookup` hands out on a cache built by `ScoresCache.init`). -/
def refInBounds (c : ScoresCache) (r : CacheRef) : Bool :=
  match r with
  | CacheRef.slot j => decide (j < c.arrays.length)
  | CacheRef.overflow => true

/-! ## LinearModel -/

/-- The `LinearModel` state: statistics counters, the global update clock,
the inference `weights` map, the training `train_weights` map, the scratch
score buffer and row-gather buffer, and the score cache. -/
structure LinearModel where
  total : Nat
  n_corr : Nat
  nr_class : Nat
  nr_templates : Nat
  time : Nat
  cache : ScoresCache
  weights : List (List (Nat × WeightsVal))
  train_weights : List (List (Nat × TrainFeat))
  scores : List Int
  weight_lines : List WeightLine
deriving Repr, DecidableEq

/-- `LinearModel.__init__(nr_class, nr_templates)`.  The source performs no
validation of its arguments; every field is zero/empty-initialised
(`Pool.alloc` zeroes, an empty `PreshMap` holds no cells). -/
def mkLinearModel (nr_class nr_templates : Nat) : LinearModel :=
  { total := 0
    n_corr := 0
    nr_class := nr_class
    nr_templates := nr_templates
    time := 0
    cache := ScoresCache.init nr_class
    weights := List.replicate nr_templates []
    train_weights := List.replicate nr_templates []
    scores := List.replicate nr_class 0
    weight_lines := List.replicate (nr_class * nr_templates)
      ⟨0, List.replicate LINE_SIZE 0⟩ }

/-- Resolve `self.weights.get(template_id, feat_id)` to the row-pointer array
it aliases: a `shared` value is the `TrainFeat.weights` array stored under
the same key of `train_weights` (pointer aliasing), an `owned` value carries
its own rows (created by `load`).  `none` is a NULL lookup result. -/
def LinearModel.resolveRows (m : LinearModel) (tid fid : Nat) :
    Option (List (Option (List Int))) :=
  match mapGet m.weights tid fid with
  | none => none
  | some WeightsVal.shared => (mapGet m.train_weights tid fid).map TrainFeat.weights
  | some (WeightsVal.owned rows) => some rows

/-- The weight lines contributed by one feature's rows (the inner loop of
`gather_weights`: for each non-NULL row, record start `row * LINE_SIZE` and
copy the row's `LINE_SIZE` weights). -/
def featLines (rows : List (Option (List Int))) (nr_rows : Nat) : List WeightLine :=
  (List.range nr_rows).filterMap
    (fun row => (rows.getD row none).map (fun rw => ⟨row * LINE_SIZE, rw⟩))

/-- `gather_weights` restricted to explicit `(template_id, feat_id)` pairs:
skip the `feat_id == 0` sentinel, skip absent features, and gather each
present feature's non-NULL rows. -/
def LinearModel.gatherPairs (m : LinearModel) (pairs : List (Nat × Nat)) : List WeightLine :=
  pairs.flatMap
    (fun p =>
      if p.2 = 0 then []
      else
        match m.resolveRows p.1 p.2 with
        | none => []
        | some rows => featLines rows (get_nr_rows m.nr_class))

/-- `gather_weights(w_lines, feat_ids, nr_active)`: the position of a feature
id in the active list is its template id. -/
def LinearModel.gather_weights (m : LinearModel) (feat_ids : List Nat) : List WeightLine :=
  m.gatherPairs feat_ids.enum

/-- `score(scores, features, nr_active)` as a pure value: gather the active
features' rows and accumulate them into a fresh score vector. -/
def LinearModel.score_list (m : LinearModel) (feat_ids : List Nat) : List Int :=
  set_scores (m.gather_weights feat_ids) m.nr_class

/-- `__call__(py_feats)`: runs `score` against the model's own scratch
buffers (`self._weight_lines`, `self.scores`) and returns the Python list of
scores. -/
def LinearModel.call (m : LinearModel) (feat_ids : List Nat) : LinearModel × List Int :=
  let wl := m.gather_weights feat_ids
  let sc := set_scores wl m.nr_class
  ({ m with weight_lines := wl, scores := sc }, sc)

/-- The row-allocation step of `update` (lines 201–203): if the row covering
the class is NULL, allocate the weight row and the metadata row together,
zero-initialised. -/
def ensureRow (f : TrainFeat) (row : Nat) : TrainFeat :=
  match f.weights.getD row none with
  | none =>
    { f with
        weights := f.weights.set row (some (List.replicate LINE_SIZE 0))
        meta := f.meta.set row (some (List.replicate LINE_SIZE MetaData.zero)) }
  | some _ => f

/-- The per-feature body of `update` (lines 198–206): ensure the row covering
`clas` is allocated, then `update_accumulator`, `update_count(1)`,
`update_weight(upd)` in that order. -/
def touchFeat (f : TrainFeat) (clas : Nat) (time : Nat) (upd : Int) : TrainFeat :=
  update_weight (update_count (update_accumulator (ensureRow f (get_row clas)) clas time)
    clas 1) clas upd

/-- One `(template_id, feat_id) -> upd` entry of `update`'s inner loop:
zero deltas are skipped before anything else; `assert feat_id != 0` fails
(models a raised exception, `none`) on a nonzero delta for the sentinel id;
otherwise the feature is resolved or created (`new_feat` registers the
shared rows in both maps) and touched. -/
def LinearModel.updateEntry (m : LinearModel) (clas : Nat) (e : (Nat × Nat) × Int) :
    Option LinearModel :=
  let tid := e.1.1
  let fid := e.1.2
  let upd := e.2
  if upd = 0 then some m
  else if fid = 0 then none
  else
    let createNew := (mapGet m.train_weights tid fid).isNone
    let feat0 :=
      match mapGet m.train_weights tid fid with
      | some f => f
      | none => new_train_feat m.nr_class
    let m :=
      if createNew then
        { m with
            weights := mapSet m.weights tid fid WeightsVal.shared
            train_weights := mapSet m.train_weights tid fid feat0 }
      else m
    some { m with
            train_weights := mapSet m.train_weights tid fid (touchFeat feat0 clas m.time upd) }

/-- `update(updates)`: advance the global clock once, then apply every
`(class, (template_id, feat_id), delta)` entry. -/
def LinearModel.update (m : LinearModel)
    (updates : List (Nat × List ((Nat × Nat) × Int))) : Option LinearModel :=
  let m0 := { m with time := m.time + 1 }
  updates.foldlM (fun m cf => cf.2.foldlM (fun m e => m.updateEntry cf.1 e) m) m0

/-- `end_training()`: apply `average_weight` to every feature stored in the
training map (the inference map aliases the same rows). -/
def LinearModel.end_training (m : LinearModel) : LinearModel :=
  { m with
      train_weights := m.train_weights.map
        (fun tc => tc.map (fun kv => (kv.1, average_weight kv.2 m.nr_class m.time))) }

/-! ## Serialization (`dump` / `load`)

`dump` writes tab-separated text lines and `load` re-parses them with
`strtok`/`strtoul`/`atoi`; since the weight scalar is integral the rendering
`'%d' % w` / `atoi` round-trips exactly, so a line is modelled as the parsed
record. -/

/-- One serialized line: `total_freq, template_id, feat_id, row,
row * LINE_SIZE, w0 .. w6`. -/
structure DumpLine where
  freq : Nat
  tid : Nat
  fid : Nat
  row : Nat
  start : Nat
  ws : List Int
deriving Repr, DecidableEq

/-- The `LINE_SIZE` weight fields written for one row
(`'%d' % feat.weights[row][col]` for `col in range(LINE_SIZE)`). -/
def renderRow (rw : List Int) : List Int :=
  (List.range LINE_SIZE).map (fun col => rw.getD col 0)

/-- `seen_non_zero`: some rendered field differs from `'0'`. -/
def hasNonzero (ws : List Int) : Bool :=
  ws.any (fun x => decide (x ≠ 0))

/-- `ln.tid == tid && ln.fid == fid`: the line belongs to feature key
`(tid, fid)`. -/
def keyIs (tid fid : Nat) (ln : DumpLine) : Bool :=
  ln.tid == tid && ln.fid == fid

/-- The line `dump` writes for one row of a feature: nothing for a NULL row
or a row whose rendered weights are all `'0'`. -/
def dumpRowOpt (tid fid : Nat) (total_freq : Nat) (f : TrainFeat) (row : Nat) :
    Option DumpLine :=
  match f.weights.getD row none with
  | none => none
  | some rw =>
    let ws := renderRow rw
    if hasNonzero ws then some ⟨total_freq, tid, fid, row, row * LINE_SIZE, ws⟩
    else none

/-- The lines `dump` writes for one feature: nothing if the feature's total
update count is below a positive `freq_thresh`; otherwise one line per
allocated row whose rendered weights are not all `'0'`. -/
def dumpFeat (tid fid : Nat) (f : TrainFeat) (nr_class : Nat) (freq_thresh : Nat) :
    List DumpLine :=
  let total_freq := get_total_count f nr_class
  if 1 ≤ freq_thresh ∧ total_freq < freq_thresh then []
  else
    (List.range (get_nr_rows nr_class)).filterMap (dumpRowOpt tid fid total_freq f)

/-- One template's portion of `dump`: iterate the training map's cells by
index, reading the key of cell `i` from the *inference* map's cell `i`
(`feat_id = weights.cells[i].key`) — the two tables have identical cell
layouts for a trained model. -/
def dumpTemplate (tid : Nat) (wcells : List (Nat × WeightsVal))
    (tcells : List (Nat × TrainFeat)) (nr_class : Nat) (freq_thresh : Nat) :
    List DumpLine :=
  (List.range tcells.length).flatMap
    (fun i =>
      match tcells.get? i with
      | none => []
      | some kv =>
        dumpFeat tid (((wcells.get? i).map Prod.fst).getD 0) kv.2 nr_class freq_thresh)

/-- `dump(file_, freq_thresh)`: all templates' lines in template order. -/
def LinearModel.dump (m : LinearModel) (freq_thresh : Nat) : List DumpLine :=
  (List.range m.nr_templates).flatMap
    (fun tid =>
      dumpTemplate tid (m.weights.getD tid []) (m.train_weights.getD tid [])
        m.nr_class freq_thresh)

/-- One line of `load`: skip it below a positive `freq_thresh`; otherwise
fetch or allocate the feature's row-pointer array in the inference map and
overwrite the row named by the line.  When the existing entry aliases a
`TrainFeat` (`shared`), the write goes through the alias into the training
feature's rows, exactly as the C pointer write would. -/
def LinearModel.loadLine (m : LinearModel) (freq_thresh : Nat) (ln : DumpLine) : LinearModel :=
  if 1 ≤ freq_thresh ∧ ln.freq < freq_thresh then m
  else
    match mapGet m.weights ln.tid ln.fid with
    | some WeightsVal.shared =>
      match mapGet m.train_weights ln.tid ln.fid with
      | some f =>
        { m with
            train_weights := mapSet m.train_weights ln.tid ln.fid
              { f with weights := f.weights.set ln.row (some ln.ws) } }
      | none => m
    | some (WeightsVal.owned rows) =>
      { m with
          weights := mapSet m.weights ln.tid ln.fid
            (WeightsVal.owned (rows.set ln.row (some ln.ws))) }
    | none =>
      { m with
          weights := mapSet m.weights ln.tid ln.fid
            (WeightsVal.owned
              ((List.replicate (get_nr_rows m.nr_class) none).set ln.row (some ln.ws))) }

/-- `load(file_, freq_thresh)`: apply every line in order. -/
def LinearModel.load (m : LinearModel) (lines : List DumpLine) (freq_thresh : Nat) :
    LinearModel :=
  lines.foldl (fun m ln => m.loadLine freq_thresh ln) m

/-- The row array behind one inference-map entry as `load` sees it: an
`owned` entry's rows, or a freshly allocated all-NULL array of `nr` rows. -/
def rowsOfVal (nr : Nat) : Option WeightsVal → List (Option (List Int))
  | some (WeightsVal.owned rows) => rows
  | _ => List.replicate nr none

/-- One step of `load` restricted to a single feature key: overwrite the
line's row in the entry's row array (allocating it on first touch). -/
def loadKeyStep (nr : Nat) (acc : Option WeightsVal) (ln : DumpLine) : Option WeightsVal :=
  some (WeightsVal.owned ((rowsOfVal nr acc).set ln.row (some ln.ws)))

/-- No inference-map entry aliases a training feature (true of a fresh model
and preserved by `load`, which only stores `owned` row arrays). -/
def noShared (m : LinearModel) : Prop :=
  ∀ tid fid, mapGet m.weights tid fid ≠ some WeightsVal.shared

/-! ## Well-formedness of a trained model

Executable invariant satisfied by every model reachable from
`mkLinearModel` by successful `update` calls; the claims about dump/load
quantify over models satisfying it. -/

/-- All of a feature's storage has the shape `new_train_feat`/`update`
produce: `nr_rows` row pointers on both sides, rows of width `LINE_SIZE`,
and weight and metadata rows allocated together. -/
def wfFeat (nr_rows : Nat) (f : TrainFeat) : Bool :=
  decide (f.weights.length = nr_rows) &&
  decide (f.meta.length = nr_rows) &&
  f.weights.all (fun o => o.elim true (fun rw => decide (rw.length = LINE_SIZE))) &&
  f.meta.all (fun o => o.elim true (fun mrw => decide (mrw.length = LINE_SIZE))) &&
  (f.weights.zip f.meta).all (fun p => p.1.isSome == p.2.isSome)

/-- Trained-model invariant: the two maps have one cell list per template,
cell `i` of the inference map and cell `i` of the training map carry the same
key, keys are nonzero and duplicate-free, every inference value aliases the
training feature (`shared`), and every stored feature is well-formed. -/
def wfModel (m : LinearModel) : Bool :=
  decide (m.weights.length = m.nr_templates) &&
  decide (m.train_weights.length = m.nr_templates) &&
  (m.weights.zip m.train_weights).all
    (fun p => decide (p.1.map Prod.fst = p.2.map Prod.fst)) &&
  m.train_weights.all (fun tc => decide (tc.map Prod.fst).Nodup) &&
  m.train_weights.all (fun tc =>
    tc.all (fun kv => decide (kv.1 ≠ 0) && wfFeat (get_nr_rows m.nr_class) kv.2)) &&
  m.weights.all (fun wc => wc.all (fun kv => kv.2 == WeightsVal.shared))

/-! ## General list lemmas -/

theorem getD_set_self {α : Type} (l : List α) (i : Nat) (v d : α) (h : i < l.length) :
    (l.set i v).getD i d = v := by
  induction l generalizing i with
  | nil => simp at h
  | cons a t ih =>
    cases i with
    | zero => rfl
    | succ j => exact ih j (by simpa using h)

theorem getD_set_ne {α : Type} (l : List α) (i j : Nat) (v d : α) (h : i ≠ j) :
    (l.set i v).getD j d = l.getD j d := by
  induction l generalizing i j with
  | nil => rfl
  | cons a t ih =>
    cases i with
    | zero => cases j with
      | zero => exact absurd rfl h
      | succ j' => rfl
    | succ i' => cases j with
      | zero => rfl
      | succ j' => exact ih i' j' (by omega)

theorem set_getD_self {α : Type} (l : List α) (i : Nat) (d : α) :
    l.set i (l.getD i d) = l := by
  induction l generalizing i with
  | nil => rfl
  | cons a t ih =>
    cases i with
    | zero => rfl
    | succ j => simpa using ih j

theorem getD_replicate {α : Type} (n i : Nat) (x d : α) :
    (List.replicate n x).getD i d = if i < n then x else d := by
  induction n generalizing i with
  | zero => simp
  | succ k ih =>
    cases i with
    | zero => simp [List.replicate]
    | succ j => simpa [List.replicate] using ih j

theorem getD_of_length_le {α : Type} (l : List α) (i : Nat) (d : α) (h : l.length ≤ i) :
    l.getD i d = d := by
  induction l generalizing i with
  | nil => rfl
  | cons a t ih =>
    cases i with
    | zero => simp at h
    | succ j => exact ih j (by simpa using h)

theorem foldlM_option_const {α β : Type} (l : List α) (f : β → α → Option β) (b : β)
    (h : ∀ a ∈ l, f b a = some b) : l.foldlM f b = some b := by
  induction l with
  | nil => rfl
  | cons a t ih =>
    have ha := h a (by simp)
    have ht : ∀ x ∈ t, f b x = some b := fun x hx => h x (List.mem_cons_of_mem _ hx)
    simp [List.foldlM, ha, ih ht]

theorem flatMap_filter_of_nil {α β : Type} (l : List α) (p : α → Bool)
    (f : α → List β) (h : ∀ a ∈ l, p a = false → f a = []) :
    (l.filter p).flatMap f = l.flatMap f := by
  induction l with
  | nil => rfl
  | cons a t ih =>
    have ht : ∀ x ∈ t, p x = false → f x = [] := fun x hx => h x (List.mem_cons_of_mem _ hx)
    by_cases hp : p a = true
    · simp [List.filter_cons, hp, ih ht]
    · have hp' : p a = false := by revert hp; cases p a <;> simp
      simp [List.filter_cons, hp', h a (by simp) hp', ih ht]

theorem filter_flatMap {α β : Type} (l : List α) (f : α → List β) (p : β → Bool) :
    (l.flatMap f).filter p = l.flatMap (fun a => (f a).filter p) := by
  induction l with
  | nil => rfl
  | cons a t ih => simp [List.flatMap_cons, List.filter_append, ih]

theorem filter_filterMap {α β : Type} (l : List α) (f : α → Option β) (p : β → Bool) :
    (l.filterMap f).filter p
      = l.filterMap (fun a => (f a).bind (fun b => if p b then some b else none)) := by
  induction l with
  | nil => rfl
  | cons a t ih =>
    cases hfa : f a with
    | none => simp [List.filterMap_cons, hfa, ih]
    | some b =>
      by_cases hp : p b = true
      · simp [List.filterMap_cons, hfa, List.filter_cons, hp, ih, Option.bind]
      · have hp' : p b = false := by revert hp; cases p b <;> simp
        simp [List.filterMap_cons, hfa, List.filter_cons, hp', ih, Option.bind]

theorem filterMap_congr_mem {α β : Type} (l : List α) (f g : α → Option β)
    (h : ∀ a ∈ l, f a = g a) : l.filterMap f = l.filterMap g := by
  induction l with
  | nil => rfl
  | cons a t ih =>
    have ht := fun x hx => h x (List.mem_cons_of_mem _ hx)
    simp [List.filterMap_cons, h a (by simp), ih ht]

/-! ## Lemmas about `addLine` and `set_scores` -/

theorem addLine_succ (s : List Int) (start : Nat) (line : List Int) (k : Nat) :
    addLine s start line (k + 1)
      = (addLine s start line k).set (start + k)
          ((addLine s start line k).getD (start + k) 0 + line.getD k 0) := by
  simp [addLine, List.range_succ]

theorem addLine_length (s : List Int) (start : Nat) (line : List Int) (k : Nat) :
    (addLine s start line k).length = s.length := by
  induction k with
  | zero => rfl
  | succ j ih => simp [addLine_succ, ih]

theorem addLine_zero_line (s : List Int) (start : Nat) (line : List Int) (k : Nat)
    (h : ∀ c, line.getD c 0 = 0) : addLine s start line k = s := by
  induction k with
  | zero => rfl
  | succ j ih => rw [addLine_succ, ih, h j, add_zero, set_getD_self]

theorem scoreStep_zero_line (n : Nat) (s : List Int) (wl : WeightLine)
    (h : ∀ c, wl.line.getD c 0 = 0) : scoreStep n s wl = s := by
  unfold scoreStep
  split <;> exact addLine_zero_line _ _ _ _ h

theorem scoreStep_length (n : Nat) (s : List Int) (wl : WeightLine) :
    (scoreStep n s wl).length = s.length := by
  unfold scoreStep
  split <;> exact addLine_length _ _ _ _

theorem foldl_scoreStep_length (L : List WeightLine) (n : Nat) (s : List Int) :
    (L.foldl (scoreStep n) s).length = s.length := by
  induction L generalizing s with
  | nil => rfl
  | cons wl t ih => simp [List.foldl_cons, ih, scoreStep_length]

theorem set_scores_length (L : List WeightLine) (n : Nat) :
    (set_scores L n).length = n := by
  simp [set_scores, foldl_scoreStep_length]

theorem foldl_scoreStep_filter (L : List WeightLine) (p : WeightLine → Bool) (n : Nat)
    (h : ∀ wl ∈ L, p wl = false → ∀ c, wl.line.getD c 0 = 0) (s : List Int) :
    (L.filter p).foldl (scoreStep n) s = L.foldl (scoreStep n) s := by
  induction L generalizing s with
  | nil => rfl
  | cons wl t ih =>
    have ht : ∀ x ∈ t, p x = false → ∀ c, x.line.getD c 0 = 0 :=
      fun x hx => h x (List.mem_cons_of_mem _ hx)
    by_cases hp : p wl = true
    · simp [List.filter_cons, hp, ih ht]
    · have hp' : p wl = false := by revert hp; cases p wl <;> simp
      simp [List.filter_cons, hp', scoreStep_zero_line n s wl (h wl (by simp) hp'), ih ht]

theorem set_scores_filter (L : List WeightLine) (p : WeightLine → Bool) (n : Nat)
    (h : ∀ wl ∈ L, p wl = false → ∀ c, wl.line.getD c 0 = 0) :
    set_scores (L.filter p) n = set_scores L n :=
  foldl_scoreStep_filter L p n h _

/-! ## Lemmas about `modW`, `modM` and the cell accessors -/

theorem modW_meta (f : TrainFeat) (r c : Nat) (g : Int → Int) :
    (modW f r c g).meta = f.meta := by
  unfold modW; cases f.weights.getD r none <;> rfl

theorem modM_weights (f : TrainFeat) (r c : Nat) (g : MetaData → MetaData) :
    (modM f r c g).weights = f.weights := by
  unfold modM; cases f.meta.getD r none <;> rfl

theorem modW_getD_row_ne (f : TrainFeat) (r c : Nat) (g : Int → Int) (r' : Nat)
    (h : r ≠ r') : (modW f r c g).weights.getD r' none = f.weights.getD r' none := by
  unfold modW
  cases f.weights.getD r none with
  | none => rfl
  | some rw => exact getD_set_ne _ _ _ _ _ h

theorem modM_getD_row_ne (f : TrainFeat) (r c : Nat) (g : MetaData → MetaData) (r' : Nat)
    (h : r ≠ r') : (modM f r c g).meta.getD r' none = f.meta.getD r' none := by
  unfold modM
  cases f.meta.getD r none with
  | none => rfl
  | some mrw => exact getD_set_ne _ _ _ _ _ h

theorem cellW_modW_col_ne (f : TrainFeat) (r c : Nat) (g : Int → Int) (c' : Nat)
    (h : c ≠ c') : cellW (modW f r c g) r c' = cellW f r c' := by
  unfold modW
  cases hrw : f.weights.getD r none with
  | none => rfl
  | some rw =>
    show cellW ⟨f.weights.set r (some (rw.set c (g (rw.getD c 0)))), f.meta⟩ r c' = cellW f r c'
    unfold cellW
    by_cases hlen : r < f.weights.length
    · show (match (f.weights.set r (some (rw.set c (g (rw.getD c 0))))).getD r none with
        | none => 0 | some rw => rw.getD c' 0) = _
      rw [getD_set_self _ _ _ _ hlen, hrw]
      show (rw.set c (g (rw.getD c 0))).getD c' 0 = rw.getD c' 0
      exact getD_set_ne _ _ _ _ _ h
    · show (match (f.weights.set r (some (rw.set c (g (rw.getD c 0))))).getD r none with
        | none => 0 | some rw => rw.getD c' 0) = _
      rw [List.set_eq_of_length_le (by omega)]

theorem cellM_modM_col_ne (f : TrainFeat) (r c : Nat) (g : MetaData → MetaData) (c' : Nat)
    (h : c ≠ c') : cellM (modM f r c g) r c' = cellM f r c' := by
  unfold modM
  cases hrw : f.meta.getD r none with
  | none => rfl
  | some mrw =>
    show cellM ⟨f.weights, f.meta.set r (some (mrw.set c (g (mrw.getD c MetaData.zero))))⟩ r c'
        = cellM f r c'
    unfold cellM
    by_cases hlen : r < f.meta.length
    · show (match (f.meta.set r (some (mrw.set c (g (mrw.getD c MetaData.zero))))).getD r none
        with | none => MetaData.zero | some mrw => mrw.getD c' MetaData.zero) = _
      rw [getD_set_self _ _ _ _ hlen, hrw]
      show (mrw.set c (g (mrw.getD c MetaData.zero))).getD c' MetaData.zero
          = mrw.getD c' MetaData.zero
      exact getD_set_ne _ _ _ _ _ h
    · show (match (f.meta.set r (some (mrw.set c (g (mrw.getD c MetaData.zero))))).getD r none
        with | none => MetaData.zero | some mrw => mrw.getD c' MetaData.zero) = _
      rw [List.set_eq_of_length_le (by omega)]

theorem cellW_modW_self (f : TrainFeat) (r c : Nat) (g : Int → Int) (rw : List Int)
    (hrw : f.weights.getD r none = some rw) (hr : r < f.weights.length)
    (hc : c < rw.length) : cellW (modW f r c g) r c = g (cellW f r c) := by
  unfold modW
  rw [hrw]
  show cellW ⟨f.weights.set r (some (rw.set c (g (rw.getD c 0)))), f.meta⟩ r c
      = g (cellW f r c)
  unfold cellW
  show (match (f.weights.set r (some (rw.set c (g (rw.getD c 0))))).getD r none with
    | none => 0 | some rw => rw.getD c 0) = _
  rw [getD_set_self _ _ _ _ hr, hrw]
  show (rw.set c (g (rw.getD c 0))).getD c 0 = g (rw.getD c 0)
  exact getD_set_self _ _ _ _ hc

theorem cellM_modM_self (f : TrainFeat) (r c : Nat) (g : MetaData → MetaData)
    (mrw : List MetaData) (hrw : f.meta.getD r none = some mrw) (hr : r < f.meta.length)
    (hc : c < mrw.length) : cellM (modM f r c g) r c = g (cellM f r c) := by
  unfold modM
  rw [hrw]
  show cellM ⟨f.weights, f.meta.set r (some (mrw.set c (g (mrw.getD c MetaData.zero))))⟩ r c
      = g (cellM f r c)
  unfold cellM
  show (match (f.meta.set r (some (mrw.set c (g (mrw.getD c MetaData.zero))))).getD r none with
    | none => MetaData.zero | some mrw => mrw.getD c MetaData.zero) = _
  rw [getD_set_self _ _ _ _ hr, hrw]
  show (mrw.set c (g (mrw.getD c MetaData.zero))).getD c MetaData.zero
      = g (mrw.getD c MetaData.zero)
  exact getD_set_self _ _ _ _ hc

theorem cellW_eq_of_weights_getD (f f' : TrainFeat) (r c : Nat)
    (h : f'.weights.getD r none = f.weights.getD r none) : cellW f' r c = cellW f r c := by
  unfold cellW; rw [h]

theorem cellM_eq_of_meta_getD (f f' : TrainFeat) (r c : Nat)
    (h : f'.meta.getD r none = f.meta.getD r none) : cellM f' r c = cellM f r c := by
  unfold cellM; rw [h]

theorem cellW_modM' (f : TrainFeat) (r c : Nat) (g : MetaData → MetaData) (r' c' : Nat) :
    cellW (modM f r c g) r' c' = cellW f r' c' := by
  unfold cellW; rw [modM_weights]

theorem cellM_modW' (f : TrainFeat) (r c : Nat) (g : Int → Int) (r' c' : Nat) :
    cellM (modW f r c g) r' c' = cellM f r' c' := by
  unfold cellM; rw [modW_meta]

theorem touchFeat_class9_frame (f : TrainFeat) (hf : wfFeat 2 f = true) (T : Nat) (d : Int) :
    (touchFeat f 9 T d).weights.getD 0 none = f.weights.getD 0 none
    ∧ (touchFeat f 9 T d).meta.getD 0 none = f.meta.getD 0 none
    ∧ (∀ c, c ≠ 2 → cellW (touchFeat f 9 T d) 1 c = cellW f 1 c
        ∧ cellM (touchFeat f 9 T d) 1 c = cellM f 1 c)
    ∧ cellW (touchFeat f 9 T d) 1 2 = cellW f 1 2 + d := by
  obtain ⟨ws, ms⟩ := f
  simp only [wfFeat, Bool.and_eq_true, decide_eq_true_eq, List.all_eq_true] at hf
  obtain ⟨⟨⟨⟨hwl, hml⟩, hwrows⟩, hmrows⟩, hpair⟩ := hf
  obtain ⟨w0, w1, rfl⟩ := List.length_eq_two.mp hwl
  obtain ⟨m0, m1, rfl⟩ := List.length_eq_two.mp hml
  have e1 : get_row 9 = 1 := by decide
  have e2 : get_col 9 = 2 := by decide
  cases w1 with
  | none =>
    have hm1 : m1 = none := by
      have := hpair (none, m1) (by simp [List.zip])
      cases m1 with
      | none => rfl
      | some mr => simp at this
    subst hm1
    have hens : ensureRow ⟨[w0, none], [m0, none]⟩ 1
        = ⟨[w0, some (List.replicate LINE_SIZE 0)],
           [m0, some (List.replicate LINE_SIZE MetaData.zero)]⟩ := rfl
    refine ⟨?_, ?_, ?_, ?_⟩
    · simp only [touchFeat, update_weight, update_count, update_accumulator, e1, e2, hens]
      rw [modW_getD_row_ne _ _ _ _ 0 (by decide), modM_weights, modM_weights]
      rfl
    · simp only [touchFeat, update_weight, update_count, update_accumulator, e1, e2, hens]
      rw [modW_meta, modM_getD_row_ne _ _ _ _ 0 (by decide),
        modM_getD_row_ne _ _ _ _ 0 (by decide)]
      rfl
    · intro c hc
      constructor
      · simp only [touchFeat, update_weight, update_count, update_accumulator, e1, e2, hens]
        rw [cellW_modW_col_ne _ _ _ _ c (by omega), cellW_modM', cellW_modM']
        show (List.replicate LINE_SIZE (0 : Int)).getD c 0 = cellW ⟨[w0, none], [m0, none]⟩ 1 c
        rw [getD_replicate]
        split <;> rfl
      · simp only [touchFeat, update_weight, update_count, update_accumulator, e1, e2, hens]
        rw [cellM_modW', cellM_modM_col_ne _ _ _ _ c (by omega),
          cellM_modM_col_ne _ _ _ _ c (by omega)]
        show (List.replicate LINE_SIZE MetaData.zero).getD c MetaData.zero
            = cellM ⟨[w0, none], [m0, none]⟩ 1 c
        rw [getD_replicate]
        split <;> rfl
    · simp only [touchFeat, update_weight, update_count, update_accumulator, e1, e2, hens]
      rw [cellW_modW_self _ 1 2 _ (List.replicate LINE_SIZE 0) ?hrw1 ?hr1 ?hc1]
      · rw [cellW_modM', cellW_modM']
        rfl
      case hrw1 => rw [modM_weights, modM_weights]; rfl
      case hr1 => rw [modM_weights, modM_weights]; simp
      case hc1 => decide
  | some rw1 =>
    have hlen : rw1.length = LINE_SIZE := by
      have := hwrows (some rw1) (by simp)
      simpa using this
    have hens : ensureRow ⟨[w0, some rw1], [m0, m1]⟩ 1 = ⟨[w0, some rw1], [m0, m1]⟩ := rfl
    refine ⟨?_, ?_, ?_, ?_⟩
    · simp only [touchFeat, update_weight, update_count, update_accumulator, e1, e2, hens]
      rw [modW_getD_row_ne _ _ _ _ 0 (by decide), modM_weights, modM_weights]
    · simp only [touchFeat, update_weight, update_count, update_accumulator, e1, e2, hens]
      rw [modW_meta, modM_getD_row_ne _ _ _ _ 0 (by decide),
        modM_getD_row_ne _ _ _ _ 0 (by decide)]
    · intro c hc
      constructor
      · simp only [touchFeat, update_weight, update_count, update_accumulator, e1, e2, hens]
        rw [cellW_modW_col_ne _ _ _ _ c (by omega), cellW_modM', cellW_modM']
      · simp only [touchFeat, update_weight, update_count, update_accumulator, e1, e2, hens]
        rw [cellM_modW', cellM_modM_col_ne _ _ _ _ c (by omega),
          cellM_modM_col_ne _ _ _ _ c (by omega)]
    · simp only [touchFeat, update_weight, update_count, update_accumulator, e1, e2, hens]
      rw [cellW_modW_self _ 1 2 _ rw1 ?hrw2 ?hr2 ?hc2]
      · rw [cellW_modM', cellW_modM']
      case hrw2 => rw [modM_weights, modM_weights]; rfl
      case hr2 => rw [modM_weights, modM_weights]; simp
      case hc2 => rw [hlen]; decide


/-! ## Lemmas about `gather_weights` and `update` -/

theorem mem_enumFrom_snd {α : Type} (l : List α) (n : Nat) (p : Nat × α)
    (h : p ∈ l.enumFrom n) : p.2 ∈ l := by
  induction l generalizing n with
  | nil => simp [List.enumFrom] at h
  | cons a t ih =>
    simp only [List.enumFrom, List.mem_cons] at h
    rcases h with h | h
    · simp [h]
    · exact List.mem_cons_of_mem _ (ih _ h)

theorem gatherPairs_all_zero (m : LinearModel) (pairs : List (Nat × Nat))
    (h : ∀ p ∈ pairs, p.2 = 0) : m.gatherPairs pairs = [] := by
  induction pairs with
  | nil => rfl
  | cons p t ih =>
    have hp := h p (by simp)
    have ht : m.gatherPairs t = [] := ih (fun x hx => h x (List.mem_cons_of_mem _ hx))
    unfold LinearModel.gatherPairs at ht ⊢
    rw [List.flatMap_cons, if_pos hp, List.nil_append, ht]

theorem updateEntry_zero_delta (m : LinearModel) (clas : Nat) (e : (Nat × Nat) × Int)
    (h : e.2 = 0) : m.updateEntry clas e = some m := by
  simp [LinearModel.updateEntry, h]

theorem update_all_zero (m : LinearModel) (updates : List (Nat × List ((Nat × Nat) × Int)))
    (h : ∀ cf ∈ updates, ∀ e ∈ cf.2, e.2 = 0) :
    m.update updates = some { m with time := m.time + 1 } := by
  unfold LinearModel.update
  apply foldlM_option_const
  intro cf hcf
  apply foldlM_option_const
  intro e he
  exact updateEntry_zero_delta _ _ _ (h cf hcf e he)

/-! ## Lemmas about the feature maps -/

theorem assocFind_assocSet_self {α : Type} (l : List (Nat × α)) (k : Nat) (v : α) :
    assocFind (assocSet l k v) k = some v := by
  induction l with
  | nil => simp [assocSet, assocFind]
  | cons kv t ih =>
    by_cases hk : kv.1 = k
    · simp [assocSet, hk, assocFind]
    · simp [assocSet, hk, assocFind, ih]

theorem assocFind_assocSet_ne {α : Type} (l : List (Nat × α)) (k k' : Nat) (v : α)
    (h : k' ≠ k) : assocFind (assocSet l k' v) k = assocFind l k := by
  induction l with
  | nil => simp [assocSet, assocFind, h]
  | cons kv t ih =>
    by_cases hk : kv.1 = k'
    · simp [assocSet, hk, assocFind, h, ih]
    · simp only [assocSet, if_neg hk, assocFind]
      by_cases hk2 : kv.1 = k
      · simp [hk2]
      · simp [hk2, ih]

theorem assocFind_mem {α : Type} (l : List (Nat × α)) (k : Nat) (v : α)
    (h : assocFind l k = some v) : (k, v) ∈ l := by
  induction l with
  | nil => simp [assocFind] at h
  | cons kv t ih =>
    by_cases hk : kv.1 = k
    · simp only [assocFind, if_pos hk] at h
      cases h
      cases kv with
      | mk k0 v0 =>
        simp only at hk
        subst hk
        exact List.mem_cons_self _ _
    · simp only [assocFind, if_neg hk] at h
      exact List.mem_cons_of_mem _ (ih h)

theorem assocFind_isSome_congr {α β : Type} (l1 : List (Nat × α)) (l2 : List (Nat × β))
    (h : l1.map Prod.fst = l2.map Prod.fst) (k : Nat) :
    (assocFind l1 k).isSome = (assocFind l2 k).isSome := by
  induction l1 generalizing l2 with
  | nil =>
    cases l2 with
    | nil => rfl
    | cons kv t => simp at h
  | cons kv t ih =>
    cases l2 with
    | nil => simp at h
    | cons kv2 t2 =>
      simp only [List.map_cons, List.cons.injEq] at h
      by_cases hk : kv.1 = k
      · simp [assocFind, hk, h.1 ▸ hk]
      · have hk2 : ¬kv2.1 = k := by rw [← h.1]; exact hk
        simp [assocFind, hk, hk2, ih t2 h.2]

theorem mapSet_length {α : Type} (maps : List (List (Nat × α))) (tid fid : Nat) (v : α) :
    (mapSet maps tid fid v).length = maps.length := by
  simp [mapSet]

theorem mapGet_mapSet_self {α : Type} (maps : List (List (Nat × α))) (tid fid : Nat)
    (v : α) (h : tid < maps.length) : mapGet (mapSet maps tid fid v) tid fid = some v := by
  unfold mapGet mapSet
  rw [getD_set_self _ _ _ _ h]
  exact assocFind_assocSet_self _ _ _

theorem mapGet_mapSet_ne {α : Type} (maps : List (List (Nat × α))) (tid fid tid' fid' : Nat)
    (v : α) (h : ¬(tid' = tid ∧ fid' = fid)) :
    mapGet (mapSet maps tid' fid' v) tid fid = mapGet maps tid fid := by
  unfold mapGet mapSet
  by_cases ht : tid' = tid
  · subst ht
    have hf : fid' ≠ fid := fun hf => h ⟨rfl, hf⟩
    by_cases hlen : tid' < maps.length
    · rw [getD_set_self _ _ _ _ hlen]
      exact assocFind_assocSet_ne _ _ _ _ hf
    · rw [List.set_eq_of_length_le (by omega)]
  · rw [getD_set_ne _ _ _ _ _ ht]

theorem mapGet_mapSet_cases {α : Type} (maps : List (List (Nat × α))) (tid fid tid' fid' : Nat)
    (v : α) :
    mapGet (mapSet maps tid' fid' v) tid fid = mapGet maps tid fid
    ∨ mapGet (mapSet maps tid' fid' v) tid fid = some v := by
  by_cases h : tid' = tid ∧ fid' = fid
  · obtain ⟨rfl, rfl⟩ := h
    by_cases hlen : tid' < maps.length
    · exact Or.inr (mapGet_mapSet_self _ _ _ _ hlen)
    · left
      unfold mapGet mapSet
      rw [List.set_eq_of_length_le (by omega)]
  · exact Or.inl (mapGet_mapSet_ne _ _ _ _ _ _ h)

/-! ## Lemmas about `load` -/

theorem loadLine_nr_class (m : LinearModel) (ft : Nat) (ln : DumpLine) :
    (m.loadLine ft ln).nr_class = m.nr_class := by
  unfold LinearModel.loadLine
  split
  · rfl
  · split
    · split <;> rfl
    · rfl
    · rfl

theorem loadLine_nr_templates (m : LinearModel) (ft : Nat) (ln : DumpLine) :
    (m.loadLine ft ln).nr_templates = m.nr_templates := by
  unfold LinearModel.loadLine
  split
  · rfl
  · split
    · split <;> rfl
    · rfl
    · rfl

theorem loadLine_weights_length (m : LinearModel) (ft : Nat) (ln : DumpLine) :
    (m.loadLine ft ln).weights.length = m.weights.length := by
  unfold LinearModel.loadLine
  split
  · rfl
  · split
    · split <;> rfl
    · exact mapSet_length _ _ _ _
    · exact mapSet_length _ _ _ _

theorem loadLine_noShared (m : LinearModel) (ft : Nat) (ln : DumpLine)
    (hns : noShared m) : noShared (m.loadLine ft ln) := by
  intro tid fid
  unfold LinearModel.loadLine
  by_cases hp : 1 ≤ ft ∧ ln.freq < ft
  · rw [if_pos hp]; exact hns tid fid
  · rw [if_neg hp]
    cases hv : mapGet m.weights ln.tid ln.fid with
    | none =>
      show mapGet (mapSet m.weights ln.tid ln.fid _) tid fid ≠ some WeightsVal.shared
      rcases mapGet_mapSet_cases m.weights tid fid ln.tid ln.fid
          (WeightsVal.owned
            ((List.replicate (get_nr_rows m.nr_class) none).set ln.row (some ln.ws)))
        with hc | hc
      · rw [hc]; exact hns tid fid
      · rw [hc]; simp
    | some v =>
      cases v with
      | shared => exact absurd hv (hns ln.tid ln.fid)
      | owned rows =>
        show mapGet (mapSet m.weights ln.tid ln.fid _) tid fid ≠ some WeightsVal.shared
        rcases mapGet_mapSet_cases m.weights tid fid ln.tid ln.fid
            (WeightsVal.owned (rows.set ln.row (some ln.ws))) with hc | hc
        · rw [hc]; exact hns tid fid
        · rw [hc]; simp

theorem keyIs_iff (tid fid : Nat) (ln : DumpLine) :
    keyIs tid fid ln = true ↔ ln.tid = tid ∧ ln.fid = fid := by
  simp [keyIs]

theorem loadLine_get_key (m : LinearModel) (ln : DumpLine) (tid fid : Nat)
    (hns : noShared m) (htid : tid < m.weights.length) (hkey : keyIs tid fid ln = true) :
    mapGet (m.loadLine 0 ln).weights tid fid
      = loadKeyStep (get_nr_rows m.nr_class) (mapGet m.weights tid fid) ln := by
  obtain ⟨h1, h2⟩ := (keyIs_iff tid fid ln).mp hkey
  unfold LinearModel.loadLine
  rw [if_neg (by simp)]
  cases hv : mapGet m.weights ln.tid ln.fid with
  | none =>
    show mapGet (mapSet m.weights ln.tid ln.fid _) tid fid = _
    rw [h1, h2] at hv ⊢
    rw [mapGet_mapSet_self _ _ _ _ htid, hv]
    rfl
  | some v =>
    cases v with
    | shared =>
      rw [h1, h2] at hv
      exact absurd hv (hns tid fid)
    | owned rows =>
      show mapGet (mapSet m.weights ln.tid ln.fid _) tid fid = _
      rw [h1, h2] at hv ⊢
      rw [mapGet_mapSet_self _ _ _ _ htid, hv]
      rfl

theorem loadLine_get_ne (m : LinearModel) (ft : Nat) (ln : DumpLine) (tid fid : Nat)
    (hkey : keyIs tid fid ln = false) :
    mapGet (m.loadLine ft ln).weights tid fid = mapGet m.weights tid fid := by
  have hne : ¬(ln.tid = tid ∧ ln.fid = fid) := by
    intro hc
    rw [(keyIs_iff tid fid ln).mpr hc] at hkey
    simp at hkey
  unfold LinearModel.loadLine
  by_cases hp : 1 ≤ ft ∧ ln.freq < ft
  · rw [if_pos hp]
  · rw [if_neg hp]
    cases hv : mapGet m.weights ln.tid ln.fid with
    | none => exact mapGet_mapSet_ne _ _ _ _ _ _ hne
    | some v =>
      cases v with
      | shared =>
        cases htv : mapGet m.train_weights ln.tid ln.fid with
        | none => rfl
        | some f => rfl
      | owned rows => exact mapGet_mapSet_ne _ _ _ _ _ _ hne

theorem load_get (L : List DumpLine) (m : LinearModel) (tid fid : Nat)
    (hns : noShared m) (htid : tid < m.weights.length) :
    mapGet ((m.load L 0)).weights tid fid
      = (L.filter (keyIs tid fid)).foldl (loadKeyStep (get_nr_rows m.nr_class))
          (mapGet m.weights tid fid) := by
  induction L generalizing m with
  | nil => rfl
  | cons ln L ih =>
    have hL : m.load (ln :: L) 0 = (m.loadLine 0 ln).load L 0 := rfl
    rw [hL]
    have htid' : tid < (m.loadLine 0 ln).weights.length := by
      rw [loadLine_weights_length]; exact htid
    by_cases hkey : keyIs tid fid ln = true
    · rw [ih (m.loadLine 0 ln) (loadLine_noShared _ _ _ hns) htid', loadLine_nr_class,
        loadLine_get_key m ln tid fid hns htid hkey]
      simp [List.filter_cons, hkey]
    · have hkey' : keyIs tid fid ln = false := by
        revert hkey; cases keyIs tid fid ln <;> simp
      rw [ih (m.loadLine 0 ln) (loadLine_noShared _ _ _ hns) htid', loadLine_nr_class,
        loadLine_get_ne _ _ _ _ _ hkey']
      simp [List.filter_cons, hkey']

theorem load_nr_class (m : LinearModel) (L : List DumpLine) (ft : Nat) :
    (m.load L ft).nr_class = m.nr_class := by
  induction L generalizing m with
  | nil => rfl
  | cons ln L ih =>
    show ((m.loadLine ft ln).load L ft).nr_class = m.nr_class
    rw [ih, loadLine_nr_class]

theorem load_nr_templates (m : LinearModel) (L : List DumpLine) (ft : Nat) :
    (m.load L ft).nr_templates = m.nr_templates := by
  induction L generalizing m with
  | nil => rfl
  | cons ln L ih =>
    show ((m.loadLine ft ln).load L ft).nr_templates = m.nr_templates
    rw [ih, loadLine_nr_templates]

theorem load_weights_length (m : LinearModel) (L : List DumpLine) (ft : Nat) :
    (m.load L ft).weights.length = m.weights.length := by
  induction L generalizing m with
  | nil => rfl
  | cons ln L ih =>
    show ((m.loadLine ft ln).load L ft).weights.length = m.weights.length
    rw [ih, loadLine_weights_length]

theorem load_noShared (m : LinearModel) (L : List DumpLine) (ft : Nat)
    (hns : noShared m) : noShared (m.load L ft) := by
  induction L generalizing m with
  | nil => exact hns
  | cons ln L ih => exact ih _ (loadLine_noShared _ _ _ hns)

theorem mkLinearModel_mapGet (n t tid fid : Nat) :
    mapGet (mkLinearModel n t).weights tid fid = none := by
  show assocFind ((List.replicate t []).getD tid []) fid = none
  rw [getD_replicate]
  split <;> rfl

theorem mkLinearModel_noShared (n t : Nat) : noShared (mkLinearModel n t) := by
  intro tid fid
  rw [mkLinearModel_mapGet]
  simp

/-! ## Lemmas about `dump` and the round trip -/

theorem flatMap_eq_nil_of {α β : Type} (l : List α) (f : α → List β)
    (h : ∀ a ∈ l, f a = []) : l.flatMap f = [] := by
  induction l with
  | nil => rfl
  | cons a t ih =>
    rw [List.flatMap_cons, h a (by simp), List.nil_append]
    exact ih (fun x hx => h x (List.mem_cons_of_mem _ hx))

theorem flatMap_congr_mem {α β : Type} (l : List α) (f g : α → List β)
    (h : ∀ a ∈ l, f a = g a) : l.flatMap f = l.flatMap g := by
  induction l with
  | nil => rfl
  | cons a t ih =>
    rw [List.flatMap_cons, List.flatMap_cons, h a (by simp),
      ih (fun x hx => h x (List.mem_cons_of_mem _ hx))]

theorem flatMap_range_single {β : Type} (n tid : Nat) (g : Nat → List β)
    (h : ∀ t, t ≠ tid → g t = []) :
    (List.range n).flatMap g = if tid < n then g tid else [] := by
  induction n with
  | zero => simp
  | succ k ih =>
    rw [List.range_succ, List.flatMap_append, ih]
    by_cases hk : tid < k
    · rw [if_pos hk, if_pos (by omega), List.flatMap_cons, List.flatMap_nil,
        List.append_nil, h k (by omega), List.append_nil]
    · rw [if_neg hk]
      by_cases hk2 : tid = k
      · subst hk2
        rw [if_pos (by omega), List.flatMap_cons, List.flatMap_nil, List.append_nil,
          List.nil_append]
      · rw [if_neg (by omega), List.flatMap_cons, List.flatMap_nil, List.append_nil,
        h k (by omega)]
        rfl

theorem renderRow_length (rw : List Int) : (renderRow rw).length = LINE_SIZE := by
  simp [renderRow]

theorem dumpRowOpt_row (tid fid tf : Nat) (f : TrainFeat) (row : Nat) (ln : DumpLine)
    (h : dumpRowOpt tid fid tf f row = some ln) :
    ln.tid = tid ∧ ln.fid = fid ∧ ln.row = row ∧ ln.ws.length = LINE_SIZE
    ∧ ∃ rw, f.weights.getD row none = some rw ∧ ln.ws = renderRow rw
        ∧ hasNonzero (renderRow rw) = true := by
  unfold dumpRowOpt at h
  cases hrw : f.weights.getD row none with
  | none => rw [hrw] at h; cases h
  | some rw =>
    rw [hrw] at h
    simp only [] at h
    by_cases hz : hasNonzero (renderRow rw) = true
    · rw [if_pos hz] at h
      cases h
      exact ⟨rfl, rfl, rfl, renderRow_length rw, rw, rfl, rfl, hz⟩
    · rw [if_neg hz] at h
      cases h

theorem dumpFeat_mem (tid fid : Nat) (f : TrainFeat) (n ft : Nat) (ln : DumpLine)
    (h : ln ∈ dumpFeat tid fid f n ft) :
    ln.tid = tid ∧ ln.fid = fid ∧ ln.row < get_nr_rows n ∧ ln.ws.length = LINE_SIZE := by
  simp only [dumpFeat] at h
  split at h
  · cases h
  · obtain ⟨row, hrow, heq⟩ := List.mem_filterMap.mp h
    obtain ⟨h1, h2, h3, h4, _⟩ := dumpRowOpt_row _ _ _ _ _ _ heq
    exact ⟨h1, h2, h3 ▸ List.mem_range.mp hrow, h4⟩

theorem dumpFeat_filter_self (tid fid : Nat) (f : TrainFeat) (n ft : Nat) :
    (dumpFeat tid fid f n ft).filter (keyIs tid fid) = dumpFeat tid fid f n ft := by
  rw [List.filter_eq_self]
  intro ln hln
  obtain ⟨h1, h2, _, _⟩ := dumpFeat_mem _ _ _ _ _ _ hln
  exact (keyIs_iff tid fid ln).mpr ⟨h1, h2⟩

theorem dumpFeat_filter_ne (tid' fid' tid fid : Nat) (f : TrainFeat) (n ft : Nat)
    (h : ¬(tid' = tid ∧ fid' = fid)) :
    (dumpFeat tid' fid' f n ft).filter (keyIs tid fid) = [] := by
  rw [List.filter_eq_nil_iff]
  intro ln hln
  obtain ⟨h1, h2, _, _⟩ := dumpFeat_mem _ _ _ _ _ _ hln
  intro hk
  obtain ⟨hk1, hk2⟩ := (keyIs_iff tid fid ln).mp hk
  exact h ⟨h1 ▸ hk1, h2 ▸ hk2⟩



theorem range_flatMap_assocFind {β : Type} (tcells : List (Nat × TrainFeat)) (fid : Nat)
    (hnd : (tcells.map Prod.fst).Nodup) (G : TrainFeat → List β) :
    (List.range tcells.length).flatMap
      (fun i => match tcells.get? i with
        | some kv => if kv.1 = fid then G kv.2 else []
        | none => [])
    = match assocFind tcells fid with
      | some f => G f
      | none => [] := by
  induction tcells with
  | nil => rfl
  | cons kv t ih =>
    obtain ⟨k0, v0⟩ := kv
    rw [List.length_cons, List.range_succ_eq_map, List.flatMap_cons, List.flatMap_map]
    have htail : (List.range t.length).flatMap
        (fun i => match ((k0, v0) :: t).get? (i + 1) with
          | some kv' => if kv'.1 = fid then G kv'.2 else []
          | none => [])
        = (List.range t.length).flatMap
          (fun i => match t.get? i with
            | some kv' => if kv'.1 = fid then G kv'.2 else []
            | none => []) := rfl
    show (match ((k0, v0) :: t).get? 0 with
        | some kv' => if kv'.1 = fid then G kv'.2 else []
        | none => []) ++ _ = _
    rw [htail]
    simp only [List.map_cons] at hnd
    have hnd' := hnd
    rw [List.nodup_cons] at hnd'
    by_cases hk : k0 = fid
    · have hzero : ∀ i, (match t.get? i with
          | some kv' => if kv'.1 = fid then G kv'.2 else []
          | none => []) = ([] : List β) := by
        intro i
        cases hget : t.get? i with
        | none => rfl
        | some kv' =>
          have hmem : kv' ∈ t := List.get?_mem hget
          have hne : kv'.1 ≠ fid := by
            intro hc
            apply hnd'.1
            have hkk : k0 = kv'.1 := by rw [hk, hc]
            rw [hkk]
            exact List.mem_map_of_mem Prod.fst hmem
          simp [hne]
      rw [flatMap_eq_nil_of _ _ (fun i _ => hzero i)]
      show (if k0 = fid then G v0 else []) ++ [] = _
      rw [if_pos hk, List.append_nil]
      show _ = (match assocFind ((k0, v0) :: t) fid with | some f => G f | none => [])
      simp only [assocFind, if_pos hk]
    · show (if k0 = fid then G v0 else []) ++ _ = _
      rw [if_neg hk, List.nil_append, ih hnd'.2]
      show _ = (match assocFind ((k0, v0) :: t) fid with | some f => G f | none => [])
      simp only [assocFind, if_neg hk]

theorem dumpTemplate_mem (tid : Nat) (wcells : List (Nat × WeightsVal))
    (tcells : List (Nat × TrainFeat)) (n ft : Nat) (ln : DumpLine)
    (h : ln ∈ dumpTemplate tid wcells tcells n ft) : ln.tid = tid := by
  unfold dumpTemplate at h
  obtain ⟨i, hi, hmem⟩ := List.mem_flatMap.mp h
  cases hget : tcells.get? i with
  | none => rw [hget] at hmem; cases hmem
  | some kv =>
    rw [hget] at hmem
    exact (dumpFeat_mem _ _ _ _ _ _ hmem).1

theorem dumpTemplate_eq (tid : Nat) (wcells : List (Nat × WeightsVal))
    (tcells : List (Nat × TrainFeat)) (n ft : Nat)
    (hsync : wcells.map Prod.fst = tcells.map Prod.fst) :
    dumpTemplate tid wcells tcells n ft
      = (List.range tcells.length).flatMap
        (fun i => match tcells.get? i with
          | some kv => dumpFeat tid kv.1 kv.2 n ft
          | none => []) := by
  unfold dumpTemplate
  apply flatMap_congr_mem
  intro i hi
  have hlt : i < tcells.length := List.mem_range.mp hi
  cases hget : tcells.get? i with
  | none =>
    exact absurd hget (by rw [List.get?_eq_none]; omega)
  | some kv =>
    have hw : (wcells.get? i).map Prod.fst = some kv.1 := by
      have h1 : (wcells.map Prod.fst).get? i = (tcells.map Prod.fst).get? i := by rw [hsync]
      rw [List.get?_map, List.get?_map, hget] at h1
      exact h1
    cases hwget : wcells.get? i with
    | none => rw [hwget] at hw; cases hw
    | some kw =>
      rw [hwget] at hw
      have hkk : kw.1 = kv.1 := by simpa using hw
      show dumpFeat tid kw.1 kv.2 n ft = dumpFeat tid kv.1 kv.2 n ft
      rw [hkk]

theorem dumpTemplate_filter (tid : Nat) (wcells : List (Nat × WeightsVal))
    (tcells : List (Nat × TrainFeat)) (n ft fid : Nat)
    (hsync : wcells.map Prod.fst = tcells.map Prod.fst)
    (hnd : (tcells.map Prod.fst).Nodup) :
    (dumpTemplate tid wcells tcells n ft).filter (keyIs tid fid)
      = match assocFind tcells fid with
        | some f => dumpFeat tid fid f n ft
        | none => [] := by
  rw [dumpTemplate_eq tid wcells tcells n ft hsync, filter_flatMap]
  have hcong : ∀ i ∈ List.range tcells.length,
      ((match tcells.get? i with
        | some kv => dumpFeat tid kv.1 kv.2 n ft
        | none => []).filter (keyIs tid fid))
      = (match tcells.get? i with
        | some kv => if kv.1 = fid then dumpFeat tid fid kv.2 n ft else []
        | none => []) := by
    intro i hi
    cases hget : tcells.get? i with
    | none => rfl
    | some kv =>
      show (dumpFeat tid kv.1 kv.2 n ft).filter (keyIs tid fid)
          = if kv.1 = fid then dumpFeat tid fid kv.2 n ft else []
      by_cases hk : kv.1 = fid
      · rw [hk, if_pos rfl, dumpFeat_filter_self]
      · rw [if_neg hk, dumpFeat_filter_ne]
        intro hc
        exact hk hc.2
  rw [flatMap_congr_mem _ _ _ hcong]
  exact range_flatMap_assocFind tcells fid hnd (fun f => dumpFeat tid fid f n ft)



theorem getD_mem_of_lt {α : Type} (l : List α) (i : Nat) (d : α) (h : i < l.length) :
    l.getD i d ∈ l := by
  induction l generalizing i with
  | nil => simp at h
  | cons a t ih =>
    cases i with
    | zero => exact List.mem_cons_self _ _
    | succ j => exact List.mem_cons_of_mem _ (ih j (by simpa using h))

theorem zip_getD_mem {α β : Type} (l1 : List α) (l2 : List β) (i : Nat) (d1 : α) (d2 : β)
    (h1 : i < l1.length) (h2 : i < l2.length) :
    (l1.getD i d1, l2.getD i d2) ∈ l1.zip l2 := by
  induction l1 generalizing l2 i with
  | nil => simp at h1
  | cons a t ih =>
    cases l2 with
    | nil => simp at h2
    | cons b t2 =>
      cases i with
      | zero => simp [List.zip_cons_cons]
      | succ j =>
        have := ih t2 j (by simpa using h1) (by simpa using h2)
        simp only [List.zip_cons_cons]
        exact List.mem_cons_of_mem _ this

theorem wfModel_spec (m : LinearModel) (h : wfModel m = true) :
    m.weights.length = m.nr_templates
    ∧ m.train_weights.length = m.nr_templates
    ∧ (∀ tid, (m.weights.getD tid []).map Prod.fst
        = (m.train_weights.getD tid []).map Prod.fst)
    ∧ (∀ tid, ((m.train_weights.getD tid []).map Prod.fst).Nodup)
    ∧ (∀ tid kv, kv ∈ m.train_weights.getD tid [] →
        kv.1 ≠ 0 ∧ wfFeat (get_nr_rows m.nr_class) kv.2 = true)
    ∧ (∀ tid kv, kv ∈ m.weights.getD tid [] → kv.2 = WeightsVal.shared) := by
  simp only [wfModel, Bool.and_eq_true, decide_eq_true_eq, List.all_eq_true] at h
  obtain ⟨⟨⟨⟨⟨hwl, htl⟩, hsync⟩, hnd⟩, htf⟩, hsh⟩ := h
  refine ⟨hwl, htl, ?_, ?_, ?_, ?_⟩
  · intro tid
    by_cases hlt : tid < m.weights.length
    · exact hsync _ (zip_getD_mem _ _ tid _ _ hlt (by omega))
    · rw [getD_of_length_le _ _ _ (by omega), getD_of_length_le _ _ _ (by omega)]
      rfl
  · intro tid
    by_cases hlt : tid < m.train_weights.length
    · exact hnd _ (getD_mem_of_lt _ _ _ hlt)
    · rw [getD_of_length_le _ _ _ (by omega)]
      simp
  · intro tid kv hkv
    by_cases hlt : tid < m.train_weights.length
    · exact htf _ (getD_mem_of_lt _ _ _ hlt) kv hkv
    · rw [getD_of_length_le _ _ _ (by omega)] at hkv
      cases hkv
  · intro tid kv hkv
    by_cases hlt : tid < m.weights.length
    · simpa using hsh _ (getD_mem_of_lt _ _ _ hlt) kv hkv
    · rw [getD_of_length_le _ _ _ (by omega)] at hkv
      cases hkv



theorem mapGet_none_of_length_le {α : Type} (maps : List (List (Nat × α))) (tid fid : Nat)
    (h : maps.length ≤ tid) : mapGet maps tid fid = none := by
  unfold mapGet
  rw [getD_of_length_le _ _ _ h]
  rfl

theorem dump_filter (m : LinearModel) (ft : Nat) (tid fid : Nat)
    (hsync : ∀ t, (m.weights.getD t []).map Prod.fst
        = (m.train_weights.getD t []).map Prod.fst)
    (hnd : ∀ t, ((m.train_weights.getD t []).map Prod.fst).Nodup) :
    (m.dump ft).filter (keyIs tid fid)
      = if tid < m.nr_templates then
          (match assocFind (m.train_weights.getD tid []) fid with
           | some f => dumpFeat tid fid f m.nr_class ft
           | none => [])
        else [] := by
  unfold LinearModel.dump
  rw [filter_flatMap]
  rw [flatMap_range_single m.nr_templates tid
    (fun t => (dumpTemplate t (m.weights.getD t []) (m.train_weights.getD t [])
      m.nr_class ft).filter (keyIs tid fid)) ?hz]
  case hz =>
    intro t ht
    rw [List.filter_eq_nil_iff]
    intro ln hln hk
    have h1 := dumpTemplate_mem _ _ _ _ _ _ hln
    exact ht (by rw [← h1, ((keyIs_iff tid fid ln).mp hk).1])
  by_cases hlt : tid < m.nr_templates
  · rw [if_pos hlt, if_pos hlt]
    exact dumpTemplate_filter tid _ _ _ _ fid (hsync tid) (hnd tid)
  · rw [if_neg hlt, if_neg hlt]

theorem foldl_loadKeyStep_some (nr : Nat) (L : List DumpLine)
    (rows : List (Option (List Int))) :
    L.foldl (loadKeyStep nr) (some (WeightsVal.owned rows))
      = some (WeightsVal.owned
          (L.foldl (fun r ln => r.set ln.row (some ln.ws)) rows)) := by
  induction L generalizing rows with
  | nil => rfl
  | cons ln L ih =>
    rw [List.foldl_cons, List.foldl_cons]
    exact ih _

theorem foldl_loadKeyStep_none (nr : Nat) (L : List DumpLine) :
    L.foldl (loadKeyStep nr) none
      = match L with
        | [] => none
        | ln :: L' => some (WeightsVal.owned
            (L'.foldl (fun r l' => r.set l'.row (some l'.ws))
              ((List.replicate nr none).set ln.row (some ln.ws)))) := by
  cases L with
  | nil => rfl
  | cons ln L' =>
    rw [List.foldl_cons]
    exact foldl_loadKeyStep_some nr L' _

theorem foldl_set_rows_getD_notmem (L : List DumpLine)
    (init : List (Option (List Int))) (r : Nat) (h : ∀ ln ∈ L, ln.row ≠ r) :
    (L.foldl (fun rows ln => rows.set ln.row (some ln.ws)) init).getD r none
      = init.getD r none := by
  induction L generalizing init with
  | nil => rfl
  | cons ln L ih =>
    rw [List.foldl_cons, ih _ (fun x hx => h x (List.mem_cons_of_mem _ hx))]
    exact getD_set_ne _ _ _ _ _ (h ln (by simp))

theorem foldl_set_rows_getD (L : List DumpLine) (init : List (Option (List Int)))
    (r : Nat) (hnd : (L.map DumpLine.row).Nodup) (hlt : ∀ ln ∈ L, ln.row < init.length) :
    (L.foldl (fun rows ln => rows.set ln.row (some ln.ws)) init).getD r none
      = match L.find? (fun ln => ln.row == r) with
        | some ln => some ln.ws
        | none => init.getD r none := by
  induction L generalizing init with
  | nil => rfl
  | cons ln L ih =>
    rw [List.foldl_cons]
    simp only [List.map_cons, List.nodup_cons] at hnd
    by_cases hr : ln.row = r
    · have hnot : ∀ l' ∈ L, l'.row ≠ r := by
        intro l' hl' hc
        apply hnd.1
        have hrr : ln.row = l'.row := by rw [hr, hc]
        rw [hrr]
        exact List.mem_map_of_mem DumpLine.row hl'
      rw [foldl_set_rows_getD_notmem _ _ _ hnot]
      have hfind : (ln :: L).find? (fun l' => l'.row == r) = some ln := by
        simp [List.find?_cons, hr]
      rw [hfind, ← hr]
      exact getD_set_self _ _ _ _ (hlt ln (by simp))
    · have hfind : (ln :: L).find? (fun l' => l'.row == r)
          = L.find? (fun l' => l'.row == r) := by
        simp [List.find?_cons, hr]
      rw [hfind, ih _ hnd.2 (by
        intro x hx
        rw [List.length_set]
        exact hlt x (List.mem_cons_of_mem _ hx))]
      cases hf : L.find? (fun l' => l'.row == r) with
      | some l' => rfl
      | none => exact getD_set_ne _ _ _ _ _ hr


theorem map_getD_range {α : Type} (l : List α) (d : α) :
    (List.range l.length).map (fun i => l.getD i d) = l := by
  induction l with
  | nil => rfl
  | cons a t ih =>
    rw [List.length_cons, List.range_succ_eq_map, List.map_cons, List.map_map]
    show a :: (List.range t.length).map (fun i => (a :: t).getD (i + 1) d) = a :: t
    have hcomp : ∀ i, (a :: t).getD (i + 1) d = t.getD i d := fun i => rfl
    simp only [hcomp]
    rw [ih]

theorem renderRow_eq (rw : List Int) (h : rw.length = LINE_SIZE) : renderRow rw = rw := by
  unfold renderRow
  rw [← h]
  exact map_getD_range rw 0

theorem map_row_filterMap (l : List Nat) (g : Nat → Option DumpLine)
    (hg : ∀ i ln, g i = some ln → ln.row = i) :
    (l.filterMap g).map DumpLine.row = l.filter (fun i => (g i).isSome) := by
  induction l with
  | nil => rfl
  | cons a t ih =>
    rw [List.filterMap_cons, List.filter_cons]
    cases hga : g a with
    | none => simpa [hga] using ih
    | some ln =>
      rw [List.map_cons, hg a ln hga, ih]
      simp [hga]

theorem find?_filterMap_row (l : List Nat) (g : Nat → Option DumpLine)
    (hg : ∀ i ln, g i = some ln → ln.row = i) (hnd : l.Nodup) (r : Nat) :
    (l.filterMap g).find? (fun ln => ln.row == r) = if r ∈ l then g r else none := by
  induction l with
  | nil => rfl
  | cons a t ih =>
    rw [List.nodup_cons] at hnd
    rw [List.filterMap_cons]
    cases hga : g a with
    | none =>
      rw [ih hnd.2]
      by_cases hra : r = a
      · subst hra
        rw [if_neg hnd.1, if_pos (by simp), hga]
      · simp [List.mem_cons, hra]
    | some ln =>
      have hrow := hg a ln hga
      rw [List.find?_cons]
      by_cases hra : r = a
      · subst hra
        have hb : (ln.row == r) = true := by simp [hrow]
        simp [hb, hga]
      · have hb : (ln.row == r) = false := by
          simp [hrow]
          exact fun hc => hra hc.symm
        simp only [hb, cond_false]
        rw [ih hnd.2]
        simp [List.mem_cons, hra]



theorem dumpFeat_zero_ft (tid fid : Nat) (f : TrainFeat) (n : Nat) :
    dumpFeat tid fid f n 0
      = (List.range (get_nr_rows n)).filterMap
          (dumpRowOpt tid fid (get_total_count f n) f) := by
  simp [dumpFeat]

theorem loadRows_dumpFeat (tid fid : Nat) (f : TrainFeat) (n r : Nat)
    (hr : r < get_nr_rows n) :
    ((dumpFeat tid fid f n 0).foldl (fun rows ln => rows.set ln.row (some ln.ws))
        (List.replicate (get_nr_rows n) none)).getD r none
      = match dumpRowOpt tid fid (get_total_count f n) f r with
        | some ln => some ln.ws
        | none => none := by
  rw [dumpFeat_zero_ft]
  have hg : ∀ i ln, dumpRowOpt tid fid (get_total_count f n) f i = some ln → ln.row = i :=
    fun i ln h => (dumpRowOpt_row _ _ _ _ _ _ h).2.2.1
  have hnd : (((List.range (get_nr_rows n)).filterMap
      (dumpRowOpt tid fid (get_total_count f n) f)).map DumpLine.row).Nodup := by
    rw [map_row_filterMap _ _ hg]
    exact (List.nodup_range _).filter _
  have hlt : ∀ ln ∈ (List.range (get_nr_rows n)).filterMap
      (dumpRowOpt tid fid (get_total_count f n) f),
      ln.row < (List.replicate (get_nr_rows n)
        (none : Option (List Int))).length := by
    intro ln hln
    obtain ⟨i, hi, hgi⟩ := List.mem_filterMap.mp hln
    rw [List.length_replicate, hg i ln hgi]
    exact List.mem_range.mp hi
  rw [foldl_set_rows_getD _ _ _ hnd hlt,
    find?_filterMap_row _ _ hg (List.nodup_range _) r, if_pos (List.mem_range.mpr hr)]
  cases hdr : dumpRowOpt tid fid (get_total_count f n) f r with
  | some ln => rfl
  | none =>
    rw [getD_replicate, if_pos hr]

theorem featLines_roundtrip (f : TrainFeat) (tid fid n : Nat)
    (hw : ∀ r rw, f.weights.getD r none = some rw → rw.length = LINE_SIZE)
    (rows' : List (Option (List Int)))
    (hrows' : ∀ r, r < get_nr_rows n → rows'.getD r none
        = match dumpRowOpt tid fid (get_total_count f n) f r with
          | some ln => some ln.ws
          | none => none) :
    featLines rows' (get_nr_rows n)
      = (featLines f.weights (get_nr_rows n)).filter (fun wl => hasNonzero wl.line) := by
  unfold featLines
  rw [filter_filterMap]
  apply filterMap_congr_mem
  intro r hr
  rw [hrows' r (List.mem_range.mp hr)]
  cases hrw : f.weights.getD r none with
  | none =>
    have hdr : dumpRowOpt tid fid (get_total_count f n) f r = none := by
      unfold dumpRowOpt
      rw [hrw]
    rw [hdr]
    rfl
  | some rw =>
    have hlen := hw r rw hrw
    have hrr : renderRow rw = rw := renderRow_eq rw hlen
    by_cases hz : hasNonzero rw = true
    · have hdr : dumpRowOpt tid fid (get_total_count f n) f r
          = some ⟨get_total_count f n, tid, fid, r, r * LINE_SIZE, rw⟩ := by
        unfold dumpRowOpt
        rw [hrw]
        dsimp only
        rw [hrr, if_pos hz]
      rw [hdr]
      simp [hz]
    · have hz' : hasNonzero rw = false := by
        revert hz; cases hasNonzero rw <;> simp
      have hdr : dumpRowOpt tid fid (get_total_count f n) f r = none := by
        unfold dumpRowOpt
        rw [hrw]
        dsimp only
        rw [hrr, hz']
        simp
      rw [hdr]
      simp [hz']

theorem resolveRows_wf (m : LinearModel) (tid fid : Nat)
    (hsync : (m.weights.getD tid []).map Prod.fst
        = (m.train_weights.getD tid []).map Prod.fst)
    (hsh : ∀ kv, kv ∈ m.weights.getD tid [] → kv.2 = WeightsVal.shared) :
    m.resolveRows tid fid
      = (assocFind (m.train_weights.getD tid []) fid).map TrainFeat.weights := by
  unfold LinearModel.resolveRows mapGet
  cases hfw : assocFind (m.weights.getD tid []) fid with
  | none =>
    have hsome := assocFind_isSome_congr _ _ hsync fid
    rw [hfw] at hsome
    cases hft : assocFind (m.train_weights.getD tid []) fid with
    | none => rfl
    | some f => rw [hft] at hsome; simp at hsome
  | some v =>
    have hv : v = WeightsVal.shared := hsh (fid, v) (assocFind_mem _ _ _ hfw)
    subst hv
    rfl

theorem filterMap_none_of {α β : Type} (l : List α) (f : α → Option β)
    (h : ∀ a ∈ l, f a = none) : l.filterMap f = [] := by
  induction l with
  | nil => rfl
  | cons a t ih =>
    rw [List.filterMap_cons, h a (by simp)]
    exact ih (fun x hx => h x (List.mem_cons_of_mem _ hx))

theorem featLines_replicate_none (nr : Nat) :
    featLines (List.replicate nr none) nr = [] := by
  unfold featLines
  apply filterMap_none_of
  intro r hr
  rw [getD_replicate]
  split <;> rfl

theorem hasNonzero_false_getD (ws : List Int) (h : hasNonzero ws = false) (c : Nat) :
    ws.getD c 0 = 0 := by
  simp only [hasNonzero, List.any_eq_false, decide_eq_true_eq, not_not] at h
  by_cases hc : c < ws.length
  · exact h _ (getD_mem_of_lt _ _ _ hc)
  · exact getD_of_length_le _ _ _ (by omega)

theorem hasNonzero_false_of_all_zero (ws : List Int) (h : ∀ x ∈ ws, x = 0) :
    hasNonzero ws = false := by
  simp only [hasNonzero, List.any_eq_false, decide_eq_true_eq, not_not]
  exact h

theorem getD_some_mem {α : Type} (l : List (Option α)) (r : Nat) (x : α)
    (h : l.getD r none = some x) : some x ∈ l := by
  by_cases hr : r < l.length
  · exact h ▸ getD_mem_of_lt _ _ _ hr
  · rw [getD_of_length_le _ _ _ (by omega)] at h
    cases h

theorem wfFeat_spec (nr : Nat) (f : TrainFeat) (h : wfFeat nr f = true) :
    f.weights.length = nr ∧ f.meta.length = nr
    ∧ (∀ r rw, f.weights.getD r none = some rw → rw.length = LINE_SIZE)
    ∧ (∀ r mrw, f.meta.getD r none = some mrw → mrw.length = LINE_SIZE) := by
  simp only [wfFeat, Bool.and_eq_true, decide_eq_true_eq, List.all_eq_true] at h
  obtain ⟨⟨⟨⟨hwl, hml⟩, hwr⟩, hmr⟩, hpair⟩ := h
  refine ⟨hwl, hml, ?_, ?_⟩
  · intro r rw hrw
    have := hwr _ (getD_some_mem _ _ _ hrw)
    simpa using this
  · intro r mrw hrw
    have := hmr _ (getD_some_mem _ _ _ hrw)
    simpa using this



theorem roundtrip_resolve (m : LinearModel) (hwf : wfModel m = true) (tid fid : Nat) :
    (match ((mkLinearModel m.nr_class m.nr_templates).load (m.dump 0) 0).resolveRows tid fid
      with
     | none => ([] : List WeightLine)
     | some rows => featLines rows (get_nr_rows m.nr_class))
    = (match m.resolveRows tid fid with
       | none => ([] : List WeightLine)
       | some rows => featLines rows (get_nr_rows m.nr_class)).filter
        (fun wl => hasNonzero wl.line) := by
  obtain ⟨hwl, htl, hsync, hnd, htf, hsh⟩ := wfModel_spec m hwf
  by_cases htid : tid < m.nr_templates
  · -- the loaded entry is the fold of this key's dump lines
    have hload : mapGet ((mkLinearModel m.nr_class m.nr_templates).load (m.dump 0) 0).weights
        tid fid
        = ((m.dump 0).filter (keyIs tid fid)).foldl
            (loadKeyStep (get_nr_rows m.nr_class)) none := by
      have h1 := load_get (m.dump 0) (mkLinearModel m.nr_class m.nr_templates) tid fid
        (mkLinearModel_noShared _ _) (by simpa [mkLinearModel] using htid)
      rw [h1, mkLinearModel_mapGet]
      rfl
    rw [dump_filter m 0 tid fid hsync hnd, if_pos htid] at hload
    cases hfind : assocFind (m.train_weights.getD tid []) fid with
    | none =>
      rw [hfind] at hload
      have hload2 : mapGet
          ((mkLinearModel m.nr_class m.nr_templates).load (m.dump 0) 0).weights tid fid
          = none := hload.trans rfl
      have hres : m.resolveRows tid fid = none := by
        rw [resolveRows_wf m tid fid (hsync tid) (fun kv hkv => hsh tid kv hkv), hfind]
        rfl
      have hres' :
          ((mkLinearModel m.nr_class m.nr_templates).load (m.dump 0) 0).resolveRows tid fid
          = none := by
        unfold LinearModel.resolveRows
        rw [hload2]
      rw [hres, hres']
      rfl
    | some feat =>
      rw [hfind] at hload
      have hload3 : mapGet
          ((mkLinearModel m.nr_class m.nr_templates).load (m.dump 0) 0).weights tid fid
          = (dumpFeat tid fid feat m.nr_class 0).foldl
              (loadKeyStep (get_nr_rows m.nr_class)) none := hload.trans rfl
      clear hload
      rename' hload3 => hload
      have hfeat := htf tid (fid, feat) (assocFind_mem _ _ _ hfind)
      obtain ⟨hfwl, hfml, hfrow, hfmrow⟩ := wfFeat_spec _ _ hfeat.2
      have hres : m.resolveRows tid fid = some feat.weights := by
        rw [resolveRows_wf m tid fid (hsync tid) (fun kv hkv => hsh tid kv hkv), hfind]
        rfl
      rw [hres]
      rw [foldl_loadKeyStep_none] at hload
      cases hdf : dumpFeat tid fid feat m.nr_class 0 with
      | nil =>
        rw [hdf] at hload
        have hres' :
            ((mkLinearModel m.nr_class m.nr_templates).load (m.dump 0) 0).resolveRows tid fid
            = none := by
          unfold LinearModel.resolveRows
          rw [hload]
        rw [hres']
        have hrows' : ∀ r, r < get_nr_rows m.nr_class →
            (List.replicate (get_nr_rows m.nr_class)
              (none : Option (List Int))).getD r none
            = match dumpRowOpt tid fid (get_total_count feat m.nr_class) feat r with
              | some ln => some ln.ws
              | none => none := by
          intro r hr
          have := loadRows_dumpFeat tid fid feat m.nr_class r hr
          rw [hdf] at this
          exact this
        have := featLines_roundtrip feat tid fid m.nr_class hfrow _ hrows'
        rw [← this, featLines_replicate_none]
      | cons ln L' =>
        rw [hdf] at hload
        have hres' :
            ((mkLinearModel m.nr_class m.nr_templates).load (m.dump 0) 0).resolveRows tid fid
            = some (L'.foldl (fun r l' => r.set l'.row (some l'.ws))
                ((List.replicate (get_nr_rows m.nr_class) none).set ln.row (some ln.ws))) := by
          unfold LinearModel.resolveRows
          rw [hload]
        rw [hres']
        have hrows' : ∀ r, r < get_nr_rows m.nr_class →
            (L'.foldl (fun rr l' => rr.set l'.row (some l'.ws))
              ((List.replicate (get_nr_rows m.nr_class) none).set ln.row (some ln.ws))).getD
                r none
            = match dumpRowOpt tid fid (get_total_count feat m.nr_class) feat r with
              | some l' => some l'.ws
              | none => none := by
          intro r hr
          have := loadRows_dumpFeat tid fid feat m.nr_class r hr
          rw [hdf, List.foldl_cons] at this
          exact this
        exact featLines_roundtrip feat tid fid m.nr_class hfrow _ hrows'
  · have hres : m.resolveRows tid fid = none := by
      unfold LinearModel.resolveRows
      rw [mapGet_none_of_length_le _ _ _ (by omega)]
    have hres' :
        ((mkLinearModel m.nr_class m.nr_templates).load (m.dump 0) 0).resolveRows tid fid
        = none := by
      unfold LinearModel.resolveRows
      rw [mapGet_none_of_length_le _ _ _ (by
        rw [load_weights_length]
        simp [mkLinearModel]
        omega)]
    rw [hres, hres']
    rfl

theorem dumpFeat_below (tid fid : Nat) (f : TrainFeat) (n ft : Nat) (hft : 1 ≤ ft)
    (hlow : get_total_count f n < ft) : dumpFeat tid fid f n ft = [] := by
  unfold dumpFeat
  rw [if_pos ⟨hft, hlow⟩]

theorem dumpFeat_above (tid fid : Nat) (f : TrainFeat) (n ft : Nat)
    (hhigh : ft ≤ get_total_count f n) :
    dumpFeat tid fid f n ft
      = (List.range (get_nr_rows n)).filterMap
          (dumpRowOpt tid fid (get_total_count f n) f) := by
  unfold dumpFeat
  rw [if_neg (by rintro ⟨h1, h2⟩; omega)]

end Thinc

namespace Thinc

/-! # The claims -/

/-- **C1** (lazy-average pinned formula): starting from a fresh single-class
model, an update with `delta = 1` applied at global time 1, an empty update
advancing the clock to 2, an update with `delta = 2` applied at time 3, and
then `end_training` (which fast-forwards through `time + 1 = 4`) leave the
touched cell with `total = (1-0)*0 + (3-1)*1 + ((3+1)-3)*3 = 5` and final
weight `w = total = 5` — no division is performed. -/
theorem C1_lazy_average_pinned :
    ((((mkLinearModel 1 1).update [(0, [((0, 5), 1)])]).bind
        (fun m1 => (m1.update []).bind
          (fun m2 => m2.update [(0, [((0, 5), 2)])]))).map
      (fun m3 =>
        ((m3.time, (mapGet m3.end_training.train_weights 0 5).map
          (fun f => (cellW f 0 0, (cellM f 0 0).total))))))
    = some (3, some (5, 5)) := by decide

/-- **C2, counterexample**: an update whose delta mapping contains only zero
deltas does *not* leave the whole model state unchanged — `update`
increments the global time counter before looking at the deltas (`self.time
+= 1`), so a fresh model's clock moves from 0 to 1. -/
theorem C2_counterexample :
    ((mkLinearModel 2 1).update [(0, [((0, 1), 0)])]).map LinearModel.time = some 1
    ∧ (mkLinearModel 2 1).time = 0 := by
  constructor
  · decide
  · rfl

/-- **C2, amended**: for every model and every update call whose delta
mapping contains only zero deltas, all weights, all metadata, both feature
maps, the statistics counters and the cache are unchanged, but the global
time counter is incremented by exactly one (the code advances `self.time`
unconditionally before skipping the zero deltas). -/
theorem C2_zero_delta_frame (m : LinearModel)
    (updates : List (Nat × List ((Nat × Nat) × Int)))
    (h : ∀ cf ∈ updates, ∀ e ∈ cf.2, e.2 = 0) :
    m.update updates = some { m with time := m.time + 1 } :=
  update_all_zero m updates h

/-- **C2, witness**: the amended frame theorem applied to a concrete model
and a dense all-zero delta map. -/
theorem C2_zero_delta_frame_witness :
    (mkLinearModel 3 2).update [(0, [((0, 7), 0), ((1, 9), 0)]), (2, [((0, 7), 0)])]
      = some { mkLinearModel 3 2 with time := 1 } :=
  C2_zero_delta_frame (mkLinearModel 3 2) _ (by decide)

/-- **C3, counterexample**: updating does *not* silently skip a
`feature_id == 0` entry — `update` runs `assert feat_id != 0` on every entry
with a nonzero delta, so an update containing `(template 0, feature 0) ↦ 1`
raises instead of being ignored. -/
theorem C3_counterexample :
    (mkLinearModel 3 1).update [(0, [((0, 0), 1)])] = none := by decide

/-- **C3, amended**: scoring ignores `feature_id == 0` entries (they are
filtered out of the gather and an all-sentinel list scores as the zero
vector, with no error), and `update` skips zero-delta entries regardless of
their feature id; but a `feature_id == 0` entry with a *nonzero* delta makes
`update` fail its `assert feat_id != 0` rather than being silently
skipped. -/
theorem C3_feature_zero_sentinel :
    (∀ (m : LinearModel) (feats : List Nat),
        m.gather_weights feats
          = m.gatherPairs (feats.enum.filter (fun p => decide (p.2 ≠ 0))))
    ∧ (∀ (m : LinearModel) (feats : List Nat), (∀ x ∈ feats, x = 0) →
        m.score_list feats = List.replicate m.nr_class 0)
    ∧ (∀ (m : LinearModel) (clas tid : Nat) (d : Int), d ≠ 0 →
        m.update [(clas, [((tid, 0), d)])] = none)
    ∧ (∀ (m : LinearModel) (clas tid : Nat),
        m.update [(clas, [((tid, 0), 0)])] = some { m with time := m.time + 1 }) := by
  refine ⟨?_, ?_, ?_, ?_⟩
  · intro m feats
    unfold LinearModel.gather_weights
    refine (flatMap_filter_of_nil _ _ _ ?_).symm
    intro p hp hfalse
    have hz : p.2 = 0 := by simpa using hfalse
    simp [hz]
  · intro m feats h
    have hz : ∀ p ∈ feats.enum, p.2 = 0 := by
      intro p hp
      exact h p.2 (mem_enumFrom_snd feats 0 p hp)
    unfold LinearModel.score_list LinearModel.gather_weights
    rw [gatherPairs_all_zero m feats.enum hz]
    rfl
  · intro m clas tid d hd
    simp [LinearModel.update, LinearModel.updateEntry, List.foldlM, hd]
  · intro m clas tid
    exact update_all_zero m _ (by simp)

/-- **C3, witness**: the sentinel behaviour at concrete inputs — an
all-sentinel active list scores to the zero vector, and a nonzero delta for
feature id 0 errors. -/
theorem C3_feature_zero_sentinel_witness :
    (mkLinearModel 2 1).score_list [0, 0] = List.replicate 2 (0 : Int)
    ∧ (mkLinearModel 2 1).update [(1, [((0, 0), 4)])] = none :=
  ⟨C3_feature_zero_sentinel.2.1 (mkLinearModel 2 1) [0, 0] (by decide),
   C3_feature_zero_sentinel.2.2.1 (mkLinearModel 2 1) 1 0 4 (by decide)⟩

/-- **C4, counterexample**: constructing a `LinearModel` with
`nr_class == 0` is *not* rejected — `__init__` performs no validation, so a
model instance with `nr_class == 0` is created. -/
theorem C4_counterexample : (mkLinearModel 0 1).nr_class = 0 := rfl

/-- **C4, amended**: construction with `nr_class == 0` succeeds for any
number of templates: `__init__` contains no configuration check (and
`get_nr_rows 0 = 1`, so even the row computation raises nothing), yielding a
degenerate zero-class model. -/
theorem C4_no_construction_check (nr_templates : Nat) :
    (mkLinearModel 0 nr_templates).nr_class = 0
    ∧ (mkLinearModel 0 nr_templates).time = 0
    ∧ get_nr_rows 0 = 1 :=
  ⟨rfl, rfl, by decide⟩

/-- **C5** (row boundary correctness, `LINE_SIZE = 7`, `nr_class = 10`):
class 9 lives in row 1 column 2; the per-feature update step at class 9
leaves row 0 (weights and metadata) untouched and, within row 1, changes no
column other than 2, adding exactly the delta at column 2; scoring a
boundary row starting at class 7 adds only its 3 valid columns, and the
score vector always has exactly `nr_class = 10` entries (no write at or
beyond `nr_class`). -/
theorem C5_row_boundary :
    (get_nr_rows 10 = 2 ∧ get_row 9 = 1 ∧ get_col 9 = 2)
    ∧ (∀ (f : TrainFeat), wfFeat 2 f = true → ∀ (T : Nat) (d : Int),
        (touchFeat f 9 T d).weights.getD 0 none = f.weights.getD 0 none
        ∧ (touchFeat f 9 T d).meta.getD 0 none = f.meta.getD 0 none
        ∧ (∀ c, c ≠ 2 → cellW (touchFeat f 9 T d) 1 c = cellW f 1 c
            ∧ cellM (touchFeat f 9 T d) 1 c = cellM f 1 c)
        ∧ cellW (touchFeat f 9 T d) 1 2 = cellW f 1 2 + d)
    ∧ (∀ l : List Int, l.length = LINE_SIZE →
        set_scores [⟨7, l⟩] 10 = List.replicate 7 (0 : Int) ++ l.take 3)
    ∧ (∀ lines : List WeightLine, (set_scores lines 10).length = 10) := by
  refine ⟨by decide, touchFeat_class9_frame, ?_, fun lines => set_scores_length lines 10⟩
  intro l hl
  rcases l with _|⟨a0,_|⟨a1,_|⟨a2,_|⟨a3,_|⟨a4,_|⟨a5,_|⟨a6,rest⟩⟩⟩⟩⟩⟩⟩ <;>
    simp [LINE_SIZE] at hl
  subst hl
  show set_scores [⟨7, [a0, a1, a2, a3, a4, a5, a6]⟩] 10 = _
  simp [set_scores, scoreStep, addLine, List.range_succ, LINE_SIZE, List.replicate,
    List.getD, List.set]

/-- **C5, witness**: the boundary behaviour at concrete inputs — a fresh
two-row feature updated at class 9 gains exactly the delta at row 1 column
2, and a concrete boundary row is accumulated into columns 7–9 only. -/
theorem C5_row_boundary_witness :
    wfFeat 2 (new_train_feat 10) = true
    ∧ cellW (touchFeat (new_train_feat 10) 9 5 3) 1 2 = cellW (new_train_feat 10) 1 2 + 3
    ∧ set_scores [⟨7, [1, 2, 3, 4, 5, 6, 7]⟩] 10
        = List.replicate 7 (0 : Int) ++ [1, 2, 3, 4, 5, 6, 7].take 3 :=
  ⟨by decide,
   (C5_row_boundary.2.1 (new_train_feat 10) (by decide) 5 3).2.2.2,
   C5_row_boundary.2.2.1 [1, 2, 3, 4, 5, 6, 7] (by decide)⟩

/-- **C6, counterexample**: with `max_size = 1`, looking up `[5]` fills the
cache; the sequence `[6]` then misses while the cache is full, is handed the
overflow buffer and is *not* registered, so querying `[6]` a second time —
with no flush in between — is again a miss (overflow buffer, `is_hit` left
unset, hit counter still 0), refuting "the second lookup is a cache hit" for
every sequence. -/
theorem C6_counterexample :
    ((((ScoresCache.init 2 1).lookup [5]).1.lookup [6]).1.lookup [6]).2.1
        = CacheRef.overflow
    ∧ ((((ScoresCache.init 2 1).lookup [5]).1.lookup [6]).1.lookup [6]).2.2 = none
    ∧ ((((ScoresCache.init 2 1).lookup [5]).1.lookup [6]).1.lookup [6]).1.n_hit = 0 := by
  decide

/-- **C6, amended**: provided the first lookup of a sequence does not hit the
cache-full overflow branch (so the key either was already cached or got
registered in a fresh slot), a second lookup of the same sequence with no
flush in between is a cache hit: it returns the same buffer, the hit counter
increments, and the buffer still holds bit-identical scores (the value the
caller wrote after the first lookup).  Lookups of uncached sequences once
`max_size` entries are held return the overflow buffer and change neither the
pooled buffers' contents nor any key association, and writes to the overflow
buffer never touch the pooled buffers. -/
theorem C6_cache_hit (c : ScoresCache) (key : List Nat) (v : List Int)
    (h : (c.lookup key).2.1 ≠ CacheRef.overflow)
    (hb : refInBounds c (c.lookup key).2.1 = true) :
    ((((c.lookup key).1.writeRef (c.lookup key).2.1 v).lookup key).2.1 = (c.lookup key).2.1
      ∧ (((c.lookup key).1.writeRef (c.lookup key).2.1 v).lookup key).2.2 = some true
      ∧ (((c.lookup key).1.writeRef (c.lookup key).2.1 v).lookup key).1.n_hit
          = ((c.lookup key).1.writeRef (c.lookup key).2.1 v).n_hit + 1
      ∧ ((((c.lookup key).1.writeRef (c.lookup key).2.1 v).lookup key).1.readRef
          ((((c.lookup key).1.writeRef (c.lookup key).2.1 v).lookup key).2.1)) = v)
    ∧ (∀ (c' : ScoresCache) (key' : List Nat), cacheFind c'.cache key' = none →
        c'.i = c'.max_size →
        (c'.lookup key').1.arrays = c'.arrays ∧ (c'.lookup key').1.cache = c'.cache)
    ∧ (∀ (c' : ScoresCache) (v' : List Int),
        (c'.writeRef CacheRef.overflow v').arrays = c'.arrays) := by
  refine ⟨?_, ?_, ?_⟩
  · cases hfind : cacheFind c.cache key with
    | some j =>
      have hj : j < c.arrays.length := by
        simpa [ScoresCache.lookup, hfind, refInBounds] using hb
      simp only [ScoresCache.lookup, ScoresCache.writeRef, ScoresCache.readRef, hfind]
      refine ⟨trivial, trivial, trivial, ?_⟩
      exact getD_set_self _ _ _ _ hj
    | none =>
      by_cases hful : c.i = c.max_size
      · exact absurd (by simp [ScoresCache.lookup, hfind, hful]) h
      · have hj : c.i < c.arrays.length := by
          simpa [ScoresCache.lookup, hfind, hful, refInBounds] using hb
        simp only [ScoresCache.lookup, ScoresCache.writeRef, ScoresCache.readRef, hfind,
          if_neg hful]
        have hself : cacheFind ((key, c.i) :: c.cache) key = some c.i := by
          simp [cacheFind]
        simp only [hself]
        refine ⟨trivial, trivial, trivial, ?_⟩
        exact getD_set_self _ _ _ _ hj
  · intro c' key' hfind hful
    simp [ScoresCache.lookup, hfind, hful]
  · intro c' v'
    simp [ScoresCache.writeRef]

/-- **C6, witness**: on a fresh three-slot cache, the repeated lookup of
`[4]` is a hit and returns the scores written after the first lookup. -/
theorem C6_cache_hit_witness :
    ((((ScoresCache.init 2 3).lookup [4]).1.writeRef
        ((ScoresCache.init 2 3).lookup [4]).2.1 [9, 9]).lookup [4]).2.2 = some true
    ∧ (((((ScoresCache.init 2 3).lookup [4]).1.writeRef
        ((ScoresCache.init 2 3).lookup [4]).2.1 [9, 9]).lookup [4]).1.readRef
        (((((ScoresCache.init 2 3).lookup [4]).1.writeRef
          ((ScoresCache.init 2 3).lookup [4]).2.1 [9, 9]).lookup [4]).2.1)) = [9, 9] :=
  ⟨(C6_cache_hit (ScoresCache.init 2 3) [4] [9, 9] (by decide) (by decide)).1.2.1,
   (C6_cache_hit (ScoresCache.init 2 3) [4] [9, 9] (by decide) (by decide)).1.2.2.2⟩

/-- **C7** (full-cache overflow policy and flush): once `i = max_size`, a
lookup of an uncached key returns the shared overflow scratch buffer without
registering the key, incrementing only the total counter and leaving slots,
associations and buffers untouched; repeating the same key is again an
overflow miss (never a hit, `is_hit` never set to true, hit counter
unchanged), so it recomputes every time; and `flush()` resets the hit and
total counters, clears all key-to-slot associations and resets the free-slot
pointer to 0. -/
theorem C7_cache_full (c : ScoresCache) (key : List Nat)
    (hfull : c.i = c.max_size) (hmiss : cacheFind c.cache key = none) :
    ((c.lookup key).2.1 = CacheRef.overflow
      ∧ (c.lookup key).1.cache = c.cache
      ∧ (c.lookup key).1.i = c.i
      ∧ (c.lookup key).1.n_hit = c.n_hit
      ∧ (c.lookup key).1.arrays = c.arrays
      ∧ (c.lookup key).1.n_total = c.n_total + 1)
    ∧ (((c.lookup key).1.lookup key).2.1 = CacheRef.overflow
      ∧ ((c.lookup key).1.lookup key).2.2 ≠ some true
      ∧ ((c.lookup key).1.lookup key).1.n_hit = c.n_hit)
    ∧ (∀ c' : ScoresCache, (ScoresCache.flush c').n_hit = 0
      ∧ (ScoresCache.flush c').n_total = 0
      ∧ (ScoresCache.flush c').cache = []
      ∧ (ScoresCache.flush c').i = 0) := by
  refine ⟨?_, ?_, fun c' => ⟨rfl, rfl, rfl, rfl⟩⟩
  · simp [ScoresCache.lookup, hmiss, hfull]
  · simp [ScoresCache.lookup, hmiss, hfull]

/-- **C7, witness**: a zero-capacity cache is full from the start; looking up
`[3]` twice yields the overflow buffer and never a hit. -/
theorem C7_cache_full_witness :
    ((ScoresCache.init 2 0).lookup [3]).2.1 = CacheRef.overflow
    ∧ (((ScoresCache.init 2 0).lookup [3]).1.lookup [3]).2.2 ≠ some true :=
  ⟨(C7_cache_full (ScoresCache.init 2 0) [3] (by decide) (by decide)).1.1,
   (C7_cache_full (ScoresCache.init 2 0) [3] (by decide) (by decide)).2.1.2.1⟩

/-- **C10** (scoring is read-only on training state): `__call__`/`score`
leave the weights map, the training map, the global time counter, the cache
and the statistics counters exactly as they were; only the scratch gather
buffer and the score buffer are written (with the gathered rows and the
computed scores respectively), and the returned list is the computed score
vector. -/
theorem C10_score_readonly (m : LinearModel) (feats : List Nat) :
    (m.call feats).1.weights = m.weights
    ∧ (m.call feats).1.train_weights = m.train_weights
    ∧ (m.call feats).1.time = m.time
    ∧ (m.call feats).1.nr_class = m.nr_class
    ∧ (m.call feats).1.nr_templates = m.nr_templates
    ∧ (m.call feats).1.cache = m.cache
    ∧ (m.call feats).1.total = m.total
    ∧ (m.call feats).1.n_corr = m.n_corr
    ∧ (m.call feats).2 = m.score_list feats
    ∧ (m.call feats).1.scores = m.score_list feats
    ∧ (m.call feats).1.weight_lines = m.gather_weights feats :=
  ⟨rfl, rfl, rfl, rfl, rfl, rfl, rfl, rfl, rfl, rfl, rfl⟩

/-- **C8** (dump/load round trip, `freq_thresh = 0`): loading a trained
model's dump into a fresh model with the same `nr_class` and `nr_templates`
reproduces identical scores for *every* active-feature query (each feature
key with at least one nonzero weight contributes its exact rows, and the
all-zero rows the dump omits contribute nothing either way); a feature all
of whose allocated rows are entirely zero is absent from the loaded model's
map, because `dump` omits all-zero rows. -/
theorem C8_round_trip (m : LinearModel) (hwf : wfModel m = true) :
    (∀ feats : List Nat,
        ((mkLinearModel m.nr_class m.nr_templates).load (m.dump 0) 0).score_list feats
          = m.score_list feats)
    ∧ (∀ tid fid feat, mapGet m.train_weights tid fid = some feat →
        (∀ r rw, feat.weights.getD r none = some rw → ∀ x ∈ rw, x = 0) →
        mapGet ((mkLinearModel m.nr_class m.nr_templates).load (m.dump 0) 0).weights
          tid fid = none) := by
  obtain ⟨hwl, htl, hsync, hnd, htf, hsh⟩ := wfModel_spec m hwf
  have hnc : ((mkLinearModel m.nr_class m.nr_templates).load (m.dump 0) 0).nr_class
      = m.nr_class := (load_nr_class _ _ _).trans rfl
  constructor
  · intro feats
    have hg : ((mkLinearModel m.nr_class m.nr_templates).load (m.dump 0) 0).gather_weights
        feats = (m.gather_weights feats).filter (fun wl => hasNonzero wl.line) := by
      unfold LinearModel.gather_weights LinearModel.gatherPairs
      rw [filter_flatMap]
      apply flatMap_congr_mem
      intro p hp
      by_cases hz : p.2 = 0
      · rw [if_pos hz, if_pos hz]
        rfl
      · rw [if_neg hz, if_neg hz]
        simp only [hnc]
        exact roundtrip_resolve m hwf p.1 p.2
    unfold LinearModel.score_list
    rw [hg, hnc]
    exact set_scores_filter _ _ _ (fun wl hmem hfalse => hasNonzero_false_getD _ hfalse)
  · intro tid fid feat hfeat hzero
    have htid : tid < m.nr_templates := by
      by_contra hc
      rw [mapGet_none_of_length_le _ _ _ (by omega)] at hfeat
      cases hfeat
    have hload : mapGet ((mkLinearModel m.nr_class m.nr_templates).load (m.dump 0) 0).weights
        tid fid
        = ((m.dump 0).filter (keyIs tid fid)).foldl
            (loadKeyStep (get_nr_rows m.nr_class)) none := by
      have h1 := load_get (m.dump 0) (mkLinearModel m.nr_class m.nr_templates) tid fid
        (mkLinearModel_noShared _ _) (by simpa [mkLinearModel] using htid)
      rw [h1, mkLinearModel_mapGet]
      rfl
    rw [dump_filter m 0 tid fid hsync hnd, if_pos htid] at hload
    have hfind : assocFind (m.train_weights.getD tid []) fid = some feat := hfeat
    rw [hfind] at hload
    have hload2 : mapGet
        ((mkLinearModel m.nr_class m.nr_templates).load (m.dump 0) 0).weights tid fid
        = (dumpFeat tid fid feat m.nr_class 0).foldl
            (loadKeyStep (get_nr_rows m.nr_class)) none := hload.trans rfl
    have hdf : dumpFeat tid fid feat m.nr_class 0 = [] := by
      rw [dumpFeat_zero_ft]
      apply filterMap_none_of
      intro r hr
      unfold dumpRowOpt
      cases hrw : feat.weights.getD r none with
      | none => rfl
      | some rw =>
        have hz : ∀ x ∈ renderRow rw, x = 0 := by
          intro x hx
          obtain ⟨c, hc, hxe⟩ := List.mem_map.mp hx
          subst hxe
          by_cases hcl : c < rw.length
          · exact hzero r rw hrw _ (getD_mem_of_lt _ _ _ hcl)
          · exact getD_of_length_le _ _ _ (by omega)
        dsimp only
        rw [hasNonzero_false_of_all_zero _ hz]
        simp
    rw [hdf] at hload2
    exact hload2.trans rfl

/-- **C8, witness**: the round trip applied to a concrete model trained by
two `update` calls, queried on its two feature ids. -/
theorem C8_round_trip_witness :
    wfModel (((mkLinearModel 3 2).update
      [(0, [((0, 5), 2), ((1, 8), 1)]), (2, [((0, 5), 1)])]).getD
        (mkLinearModel 3 2)) = true
    ∧ ((mkLinearModel
        ((((mkLinearModel 3 2).update
          [(0, [((0, 5), 2), ((1, 8), 1)]), (2, [((0, 5), 1)])]).getD
            (mkLinearModel 3 2)).nr_class)
        ((((mkLinearModel 3 2).update
          [(0, [((0, 5), 2), ((1, 8), 1)]), (2, [((0, 5), 1)])]).getD
            (mkLinearModel 3 2)).nr_templates)).load
        ((((mkLinearModel 3 2).update
          [(0, [((0, 5), 2), ((1, 8), 1)]), (2, [((0, 5), 1)])]).getD
            (mkLinearModel 3 2)).dump 0) 0).score_list [5, 8]
      = ((((mkLinearModel 3 2).update
          [(0, [((0, 5), 2), ((1, 8), 1)]), (2, [((0, 5), 1)])]).getD
            (mkLinearModel 3 2)).score_list [5, 8]) :=
  ⟨by decide,
   (C8_round_trip (((mkLinearModel 3 2).update
      [(0, [((0, 5), 2), ((1, 8), 1)]), (2, [((0, 5), 1)])]).getD
        (mkLinearModel 3 2)) (by decide)).1 [5, 8]⟩

/-- **C9** (frequency pruning, `freq_thresh >= 1`): a stored feature whose
total update count summed across all classes is below the threshold
produces no dump line at all and is absent after dump+load even if its
weights are nonzero; a feature at or above the threshold is dumped as
exactly `dumpFeat` — one line per allocated row with a nonzero rendered
weight, each carrying exactly `LINE_SIZE` integer weight fields, the dumped
row indices being precisely the allocated nonzero rows. -/
theorem C9_frequency_pruning (m : LinearModel) (hwf : wfModel m = true)
    (tid fid ft : Nat) (feat : TrainFeat) (hft : 1 ≤ ft)
    (hfeat : mapGet m.train_weights tid fid = some feat) :
    (get_total_count feat m.nr_class < ft →
        (m.dump ft).filter (keyIs tid fid) = []
        ∧ mapGet ((mkLinearModel m.nr_class m.nr_templates).load (m.dump ft) 0).weights
            tid fid = none)
    ∧ (ft ≤ get_total_count feat m.nr_class →
        (m.dump ft).filter (keyIs tid fid) = dumpFeat tid fid feat m.nr_class ft
        ∧ (∀ ln ∈ dumpFeat tid fid feat m.nr_class ft, ln.ws.length = LINE_SIZE)
        ∧ (dumpFeat tid fid feat m.nr_class ft).map DumpLine.row
            = (List.range (get_nr_rows m.nr_class)).filter
                (fun r => (dumpRowOpt tid fid
                    (get_total_count feat m.nr_class) feat r).isSome)) := by
  obtain ⟨hwl, htl, hsync, hnd, htf, hsh⟩ := wfModel_spec m hwf
  have htid : tid < m.nr_templates := by
    by_contra hc
    rw [mapGet_none_of_length_le _ _ _ (by omega)] at hfeat
    cases hfeat
  have hfind : assocFind (m.train_weights.getD tid []) fid = some feat := hfeat
  have hfilter : (m.dump ft).filter (keyIs tid fid) = dumpFeat tid fid feat m.nr_class ft := by
    rw [dump_filter m ft tid fid hsync hnd, if_pos htid, hfind]
  constructor
  · intro hlow
    have hdf := dumpFeat_below tid fid feat m.nr_class ft hft hlow
    refine ⟨hfilter.trans hdf, ?_⟩
    have hload : mapGet ((mkLinearModel m.nr_class m.nr_templates).load (m.dump ft) 0).weights
        tid fid
        = ((m.dump ft).filter (keyIs tid fid)).foldl
            (loadKeyStep (get_nr_rows m.nr_class)) none := by
      have h1 := load_get (m.dump ft) (mkLinearModel m.nr_class m.nr_templates) tid fid
        (mkLinearModel_noShared _ _) (by simpa [mkLinearModel] using htid)
      rw [h1, mkLinearModel_mapGet]
      rfl
    rw [hfilter.trans hdf] at hload
    exact hload.trans rfl
  · intro hhigh
    refine ⟨hfilter, ?_, ?_⟩
    · intro ln hln
      exact (dumpFeat_mem _ _ _ _ _ _ hln).2.2.2
    · rw [dumpFeat_above tid fid feat m.nr_class ft hhigh]
      exact map_row_filterMap _ _
        (fun i ln h => (dumpRowOpt_row _ _ _ _ _ _ h).2.2.1)

/-- **C9, witness**: pruning applied to a concrete model whose feature
`(1, 9)` was updated once: with `freq_thresh = 2` it vanishes from the dump
and from the reloaded model. -/
theorem C9_frequency_pruning_witness :
    (((((mkLinearModel 2 2).update
        [(0, [((0, 4), 3), ((1, 9), 1)]), (1, [((0, 4), 1)])]).getD
          (mkLinearModel 2 2)).dump 2).filter (keyIs 1 9) = [])
    ∧ mapGet ((mkLinearModel
        ((((mkLinearModel 2 2).update
          [(0, [((0, 4), 3), ((1, 9), 1)]), (1, [((0, 4), 1)])]).getD
            (mkLinearModel 2 2)).nr_class)
        ((((mkLinearModel 2 2).update
          [(0, [((0, 4), 3), ((1, 9), 1)]), (1, [((0, 4), 1)])]).getD
            (mkLinearModel 2 2)).nr_templates)).load
        ((((mkLinearModel 2 2).update
          [(0, [((0, 4), 3), ((1, 9), 1)]), (1, [((0, 4), 1)])]).getD
            (mkLinearModel 2 2)).dump 2) 0).weights 1 9 = none :=
  (C9_frequency_pruning
    (((mkLinearModel 2 2).update
      [(0, [((0, 4), 3), ((1, 9), 1)]), (1, [((0, 4), 1)])]).getD (mkLinearModel 2 2))
    (by decide) 1 9 2
    ⟨[some [1, 0, 0, 0, 0, 0, 0]],
     [some [⟨0, 1, 1⟩, MetaData.zero, MetaData.zero, MetaData.zero, MetaData.zero,
        MetaData.zero, MetaData.zero]]⟩
    (by decide) (by decide)).1 (by decide)

end Thinc
